import Mathlib

/-!
Verification of the LocalLeadGenAI generation pipeline.

This file gives a shallow embedding of the pipeline core of the repository:

* the JSON values the AI provider's text is coerced into, together with an
  executable model of `JSON.parse` (a fuel-based recursive-descent parser on
  character lists following RFC 8259, including escape sequences, strict
  leading-zero and trailing-content rules) and of `JSON.stringify` (a decimal
  renderer; numbers are modelled exactly as scaled decimals `m / 10^e`, which
  covers every numeric literal the grammar can produce);
* `safeJsonParse` from `utils/validation.ts`, whose extraction step models the
  JavaScript regular expressions `/\[[\s\S]*\]/` and (on failure of the first)
  the brace analogue: a greedy span from the first opening bracket to the last
  closing bracket, if the latter comes after the former;
* `identifyOpportunities` from `utils/leadAnalyzer.ts` with the thresholds of
  `config/constants.ts`, ratings and review counts modelled as rationals;
* the response post-processing of `findLeads`, `auditBusiness` and
  `generatePitch` from `services/geminiService.ts` (and, for comparison, the
  refactored service variant present in the repository that routes through
  `safeJsonParse` and `identifyOpportunities`), with the AI call itself
  abstracted as an `Except`-valued outcome;
* the `useLeads` hook of `hooks/useLeads.ts` as a small-step state machine over
  an explicit queue of in-flight asynchronous continuations, which makes the
  interleavings of overlapping audit requests expressible.

JavaScript-specific behaviour is modelled explicitly where the claims depend
on it: `x || d` defaulting, falsiness of absent/empty values, and comparisons
against `undefined` being false (`NaN` propagation).
-/

/-- A JSON value. Numbers are scaled decimals: `num m e` denotes `m / 10^e`,
which is exactly the set of values JSON numeric literals denote. -/
inductive Json where
  | null
  | bool (b : Bool)
  | num (m : Int) (e : Nat)
  | str (s : String)
  | arr (xs : List Json)
  | obj (kvs : List (String × Json))

/-- The rational value of a scaled-decimal JSON number. -/
def ratOfNum (m : Int) (e : Nat) : ℚ := (m : ℚ) / (10 : ℚ) ^ e

/-! ## Character-level helpers (total, structural) -/

/-- JSON insignificant whitespace (RFC 8259: space, tab, line feed, carriage return). -/
def jsonWs (c : Char) : Bool := c = ' ' || c = '\t' || c = '\n' || c = '\r'

/-- Drop leading JSON whitespace. -/
def skipWs : List Char → List Char
  | c :: cs => if jsonWs c then skipWs cs else c :: cs
  | [] => []

/-- Decimal digit test. -/
def decDigit (c : Char) : Bool := '0' ≤ c && c ≤ '9'

/-- Split off the longest leading run of decimal digits. -/
def takeDigits : List Char → List Char × List Char
  | c :: cs =>
    if decDigit c then
      let p := takeDigits cs
      (c :: p.1, p.2)
    else ([], c :: cs)
  | [] => ([], [])

/-- Numeric value of a digit character. -/
def digitVal (c : Char) : Nat := c.toNat - '0'.toNat

/-- Value of a digit run, most significant first. -/
def digitsVal (ds : List Char) : Nat :=
  ds.foldl (fun acc c => 10 * acc + digitVal c) 0

/-- Value of a hexadecimal digit character, both letter cases accepted. -/
def hexVal (c : Char) : Option Nat :=
  if decDigit c then some (digitVal c)
  else if 'a' ≤ c && c ≤ 'f' then some (c.toNat + 10 - 'a'.toNat)
  else if 'A' ≤ c && c ≤ 'F' then some (c.toNat + 10 - 'A'.toNat)
  else none

/-- The character for a decimal digit value (explicit table, proof-friendly). -/
def digitChar : Nat → Char
  | 0 => '0' | 1 => '1' | 2 => '2' | 3 => '3' | 4 => '4'
  | 5 => '5' | 6 => '6' | 7 => '7' | 8 => '8' | _ => '9'

/-- The lowercase character for a hexadecimal digit value. -/
def hexChar : Nat → Char
  | 0 => '0' | 1 => '1' | 2 => '2' | 3 => '3' | 4 => '4'
  | 5 => '5' | 6 => '6' | 7 => '7' | 8 => '8' | 9 => '9'
  | 10 => 'a' | 11 => 'b' | 12 => 'c' | 13 => 'd' | 14 => 'e' | _ => 'f'

/-- Decimal digit characters of a natural number, most significant first.
Fuel-based so the definition is structural and kernel-reducible; the fuel
`n + 1` always suffices since the argument at least halves each step. -/
def natChars (n : Nat) : List Char := go (n + 1) n
where
  go : Nat → Nat → List Char
    | 0, _ => []
    | fuel + 1, n => if n < 10 then [digitChar n] else go fuel (n / 10) ++ [digitChar (n % 10)]

/-! ## The parser: a model of JavaScript `JSON.parse` -/

/-- Translate a single-character escape (after a backslash) back to its character. -/
def unescCh : Char → Option Char
  | '"' => some '"'
  | '\\' => some '\\'
  | '/' => some '/'
  | 'b' => some (Char.ofNat 8)
  | 'f' => some (Char.ofNat 12)
  | 'n' => some '\n'
  | 'r' => some '\r'
  | 't' => some '\t'
  | _ => none

/-- Parse the body of a JSON string after the opening quote, producing the
decoded characters and the input after the closing quote. Raw control
characters are rejected, as `JSON.parse` rejects them. -/
def parseStrBody : List Char → Option (List Char × List Char)
  | '"' :: rest => some ([], rest)
  | '\\' :: 'u' :: h1 :: h2 :: h3 :: h4 :: rest => do
    let a ← hexVal h1
    let b ← hexVal h2
    let c ← hexVal h3
    let d ← hexVal h4
    let p ← parseStrBody rest
    some (Char.ofNat (((a * 16 + b) * 16 + c) * 16 + d) :: p.1, p.2)
  | '\\' :: e :: rest => do
    let u ← unescCh e
    let p ← parseStrBody rest
    some (u :: p.1, p.2)
  | c :: rest =>
    if c.toNat < 32 then none
    else do
      let p ← parseStrBody rest
      some (c :: p.1, p.2)
  | [] => none

/-- Parse an optional fraction part: digits after a dot, which must be
nonempty when the dot is present. -/
def parseFracPart : List Char → Option (List Char × List Char)
  | '.' :: r =>
    let p := takeDigits r
    if p.1 = [] then none else some (p.1, p.2)
  | cs => some ([], cs)

/-- Parse an optional exponent part, returning the signed exponent value. -/
def parseExpPart : List Char → Option (Int × List Char)
  | 'e' :: r => parseExpTail r
  | 'E' :: r => parseExpTail r
  | cs => some (0, cs)
where
  parseExpTail (r : List Char) : Option (Int × List Char) :=
    let (sgn, r1) : Int × List Char :=
      match r with
      | '+' :: t => (1, t)
      | '-' :: t => (-1, t)
      | t => (1, t)
    let p := takeDigits r1
    if p.1 = [] then none else some (sgn * (digitsVal p.1 : Int), p.2)

/-- Split a leading minus sign off a number literal. -/
def splitSign : List Char → Bool × List Char
  | '-' :: r => (true, r)
  | r => (false, r)

/-- A digit run with a forbidden leading zero: `0` followed by more digits. -/
def leadZeroBad : List Char → Bool
  | '0' :: _ :: _ => true
  | _ => false

/-- Parse a JSON number into scaled-decimal form. The integer part must be
nonempty and must be a single `0` or start with a nonzero digit
(`JSON.parse` rejects `01`). -/
def parseNum (cs : List Char) : Option ((Int × Nat) × List Char) :=
  let sp := splitSign cs
  let neg := sp.1
  let ip := takeDigits sp.2
  if ip.1 = [] then none
  else if leadZeroBad ip.1 then none
  else do
    let fp ← parseFracPart ip.2
    let ep ← parseExpPart fp.2
    let base : Int := (if neg then -1 else 1) * (digitsVal (ip.1 ++ fp.1) : Int)
    let dec : Int := ep.1 - (fp.1.length : Int)
    if 0 ≤ dec then some ((base * 10 ^ dec.toNat, 0), ep.2)
    else some ((base, (-dec).toNat), ep.2)

mutual

/-- Parse one JSON value, returning it and the remaining input. Structural on
the fuel so every definition below stays kernel-reducible. -/
def parseVal : Nat → List Char → Option (Json × List Char)
  | 0, _ => none
  | fuel + 1, cs =>
    match skipWs cs with
    | 'n' :: 'u' :: 'l' :: 'l' :: r => some (.null, r)
    | 't' :: 'r' :: 'u' :: 'e' :: r => some (.bool true, r)
    | 'f' :: 'a' :: 'l' :: 's' :: 'e' :: r => some (.bool false, r)
    | '"' :: r =>
      match parseStrBody r with
      | some p => some (.str (String.mk p.1), p.2)
      | none => none
    | '[' :: r =>
      (match skipWs r with
       | ']' :: r1 => some (.arr [], r1)
       | cs1 =>
         match parseItems fuel cs1 with
         | some p => some (.arr p.1, p.2)
         | none => none)
    | '\x7b' :: r =>
      (match skipWs r with
       | '\x7d' :: r1 => some (.obj [], r1)
       | cs1 =>
         match parseFields fuel cs1 with
         | some p => some (.obj p.1, p.2)
         | none => none)
    | cs0 =>
      match parseNum cs0 with
      | some p => some (.num p.1.1 p.1.2, p.2)
      | none => none

/-- Parse the elements of a nonempty array body up to and including the
closing bracket. -/
def parseItems : Nat → List Char → Option (List Json × List Char)
  | 0, _ => none
  | fuel + 1, cs =>
    match parseVal fuel cs with
    | none => none
    | some (v, r) =>
      match skipWs r with
      | ',' :: r1 =>
        (match parseItems fuel r1 with
         | some p => some (v :: p.1, p.2)
         | none => none)
      | ']' :: r1 => some ([v], r1)
      | _ => none

/-- Parse the members of a nonempty object body up to and including the
closing brace. -/
def parseFields : Nat → List Char → Option (List (String × Json) × List Char)
  | 0, _ => none
  | fuel + 1, cs =>
    match skipWs cs with
    | '"' :: r =>
      (match parseStrBody r with
       | none => none
       | some (k, r1) =>
         match skipWs r1 with
         | ':' :: r2 =>
           (match parseVal fuel r2 with
            | none => none
            | some (v, r3) =>
              match skipWs r3 with
              | ',' :: r4 =>
                (match parseFields fuel r4 with
                 | some p => some ((String.mk k, v) :: p.1, p.2)
                 | none => none)
              | '\x7d' :: r4 => some ([(String.mk k, v)], r4)
              | _ => none)
         | _ => none)
    | _ => none

end

/-- Model of `JSON.parse` on a character list: `none` models a thrown
`SyntaxError`. The whole input must be one value plus trailing whitespace. -/
def jsonParseChars (cs : List Char) : Option Json :=
  match parseVal (cs.length + 1) cs with
  | some (v, r) => if skipWs r = [] then some v else none
  | none => none

/-- Model of `JSON.parse` on strings. -/
def jsonParse (text : String) : Option Json := jsonParseChars text.data

/-! ## The serializer: a model of JavaScript `JSON.stringify` -/

/-- Escape one character the way `JSON.stringify` does: quote and backslash
get a backslash, the five named control characters use their short escapes,
every other control character uses a four-digit lowercase `u`-escape. -/
def escCh (c : Char) : List Char :=
  if c = '"' then ['\\', '"']
  else if c = '\\' then ['\\', '\\']
  else if c.toNat = 8 then ['\\', 'b']
  else if c = '\t' then ['\\', 't']
  else if c = '\n' then ['\\', 'n']
  else if c.toNat = 12 then ['\\', 'f']
  else if c = '\r' then ['\\', 'r']
  else if c.toNat < 32 then
    ['\\', 'u', '0', '0', hexChar (c.toNat / 16), hexChar (c.toNat % 16)]
  else [c]

/-- Escape a character list. -/
def escChars : List Char → List Char
  | [] => []
  | c :: cs => escCh c ++ escChars cs

/-- Render a JSON string literal including its quotes. -/
def serStr (s : String) : List Char := '"' :: (escChars s.data ++ ['"'])

/-- Render the absolute value of a scaled decimal: plain digits when there is
no fractional part, otherwise integer digits, a dot, and exactly `e` fraction
digits (zero-padded on the left). -/
def serNumAbs (n : Nat) (e : Nat) : List Char :=
  if e = 0 then natChars n
  else
    natChars (n / 10 ^ e) ++
      '.' :: (List.replicate (e - (natChars (n % 10 ^ e)).length) '0' ++ natChars (n % 10 ^ e))

/-- Render a scaled-decimal JSON number, with a sign for negative mantissas. -/
def serNum (m : Int) (e : Nat) : List Char :=
  (if m < 0 then ['-'] else []) ++ serNumAbs m.natAbs e

mutual

/-- Render a JSON value to characters, in the compact separator-free form
`JSON.stringify` produces. -/
def serVal : Json → List Char
  | .null => 'n' :: ['u', 'l', 'l']
  | .bool true => 't' :: ['r', 'u', 'e']
  | .bool false => 'f' :: ['a', 'l', 's', 'e']
  | .num m e => serNum m e
  | .str s => serStr s
  | .arr xs => '[' :: (serItems xs ++ [']'])
  | .obj kvs => '\x7b' :: (serFields kvs ++ ['\x7d'])

/-- Render array elements, comma-separated. -/
def serItems : List Json → List Char
  | [] => []
  | x :: xs => serVal x ++ serItemsTail xs

/-- Render the tail of an array element list: each element preceded by a comma. -/
def serItemsTail : List Json → List Char
  | [] => []
  | x :: xs => ',' :: (serVal x ++ serItemsTail xs)

/-- Render object members, comma-separated. -/
def serFields : List (String × Json) → List Char
  | [] => []
  | (k, v) :: kvs => serStr k ++ ':' :: (serVal v ++ serFieldsTail kvs)

/-- Render the tail of an object member list: each member preceded by a comma. -/
def serFieldsTail : List (String × Json) → List Char
  | [] => []
  | (k, v) :: kvs => ',' :: (serStr k ++ ':' :: (serVal v ++ serFieldsTail kvs))

end

/-- Model of `JSON.stringify` on strings. -/
def stringify (j : Json) : String := String.mk (serVal j)

/-! ## The greedy bracket matcher of `utils/validation.ts`

`text.match(/\[[\s\S]*\])/` matches, when the text contains an opening
bracket with some closing bracket after it, the span from the first opening
bracket to the last closing bracket (leftmost start, greedy middle). -/

/-- Index of the first occurrence of a character. -/
def firstIdxOf (c : Char) : List Char → Option Nat
  | [] => none
  | x :: xs => if x = c then some 0 else (firstIdxOf c xs).map (· + 1)

/-- Index of the last occurrence of a character. -/
def lastIdxOf (c : Char) : List Char → Option Nat
  | [] => none
  | x :: xs =>
    match lastIdxOf c xs with
    | some i => some (i + 1)
    | none => if x = c then some 0 else none

/-- The match of the greedy regular expression `open .* close` (with `.`
matching anything, as `[\s\S]` does): the span from the first `o` to the last
`c`, provided the latter is strictly after the former. -/
def greedySpan (o c : Char) (cs : List Char) : Option (List Char) :=
  match firstIdxOf o cs, lastIdxOf c cs with
  | some i, some j => if i < j then some ((cs.drop i).take (j - i + 1)) else none
  | _, _ => none

/-- The fragment selection of `safeJsonParse`:
`text.match(/\[[\s\S]*\]/) || text.match(/\x7b[\s\S]*\x7d/)`. -/
def jsonBlockMatch (text : String) : Option (List Char) :=
  match greedySpan '[' ']' text.data with
  | some frag => some frag
  | none => greedySpan '\x7b' '\x7d' text.data

/-- Shallow embedding of `safeJsonParse` (`utils/validation.ts`): extract a
bracketed fragment with the two greedy regular expressions, `JSON.parse` it,
and return the fallback when there is no fragment or the parse throws. -/
def safeJsonParse (text : String) (fallback : Json) : Json :=
  match jsonBlockMatch text with
  | none => fallback
  | some frag =>
    match jsonParseChars frag with
    | some v => v
    | none => fallback

/-! ## JavaScript value helpers

The service code leans on JavaScript idioms: `x || d` defaulting, truthiness,
and comparisons against possibly-absent values. These helpers model them for
the value shapes that actually occur (absent values and parsed JSON values).
-/

/-- JavaScript `x || d` for an optional string: the default replaces both an
absent value and the empty string (which is falsy). -/
def jsOrStr : Option String → String → String
  | some s, d => if s = "" then d else s
  | none, d => d

/-- Property access on a parsed JSON value: `undefined` (`none`) off objects
and missing keys; later duplicate keys win, as in JavaScript object literals. -/
def jsGet (j : Json) (k : String) : Option Json :=
  match j with
  | .obj kvs => (kvs.reverse.find? (fun kv => kv.1 = k)).map (fun kv => kv.2)
  | _ => none

/-- JavaScript truthiness of a possibly-absent parsed JSON value. -/
def jsTruthy : Option Json → Bool
  | none => false
  | some .null => false
  | some (.bool b) => b
  | some (.num m _) => decide (m ≠ 0)
  | some (.str s) => decide (s ≠ "")
  | some (.arr _) => true
  | some (.obj _) => true

/-- JavaScript `x < q` for a possibly-absent value against the numeric
literal `m2 / 10^e2`: `undefined` compares as `NaN`, so every comparison with
it is false. A non-numeric operand is modelled as false as well (the
string-coercion corner of JavaScript `<` is not exercised by the claims).
The comparison is exact integer cross-multiplication; `jsNumLt_eq_ratLt`
below identifies it with the rational-value comparison. -/
def jsNumLt (x : Option Json) (m2 : Int) (e2 : Nat) : Bool :=
  match x with
  | some (.num m e) => decide (m * 10 ^ e2 < m2 * 10 ^ e)
  | _ => false

/-- JavaScript `x > q`, with the same `NaN` convention as `jsNumLt`. -/
def jsNumGt (x : Option Json) (m2 : Int) (e2 : Nat) : Bool :=
  match x with
  | some (.num m e) => decide (m2 * 10 ^ e < m * 10 ^ e2)
  | _ => false

/-- JavaScript `x || 0` for a field expected to be numeric: a number keeps its
value (zero is falsy but `0 || 0` is still `0`), anything else defaults to 0. -/
def jsNumOrZero : Option Json → ℚ
  | some (.num m e) => ratOfNum m e
  | _ => 0

/-- A field expected to be a string, kept as-is including absence; non-string
values are outside the modelled scope (the TypeScript types assert strings). -/
def jsStrField : Option Json → Option String
  | some (.str s) => some s
  | _ => none

/-- A required string field; non-string values are outside the modelled scope. -/
def jsStrOrEmpty : Option Json → String
  | some (.str s) => s
  | _ => ""

/-! ## `config/constants.ts` and `types.ts` -/

/-- The `LEAD_THRESHOLDS` table of `config/constants.ts`. -/
structure LeadThresholds where
  LOW_REPUTATION_RATING : ℚ
  UNDERVALUED_RATING : ℚ
  UNDERVALUED_MAX_REVIEWS : ℚ

/-- Business lead thresholds (`config/constants.ts`). -/
def LEAD_THRESHOLDS : LeadThresholds :=
  { LOW_REPUTATION_RATING := 4.0
    UNDERVALUED_RATING := 4.5
    UNDERVALUED_MAX_REVIEWS := 20 }

/-- The `OpportunityType` enum of `types.ts`. -/
inductive OpportunityType where
  | LOW_REPUTATION
  | UNDERVALUED
  | MISSING_INFO
deriving DecidableEq

/-- The string value each enum member carries in `types.ts`. -/
def OpportunityType.label : OpportunityType → String
  | .LOW_REPUTATION => "Low Reputation"
  | .UNDERVALUED => "Undervalued"
  | .MISSING_INFO => "Missing Info"

/-- The `BusinessLead` interface of `types.ts`; ratings and review counts are
modelled as rationals. -/
structure BusinessLead where
  id : String
  name : String
  address : String
  rating : ℚ
  reviews : ℚ
  website : Option String
  opportunities : List OpportunityType
deriving DecidableEq

/-- A `{title, uri}` source pair of `BusinessAudit`. -/
structure WebSource where
  title : String
  uri : String
deriving DecidableEq

/-- The `BusinessAudit` interface of `types.ts`. -/
structure BusinessAudit where
  content : String
  sources : List WebSource
  gaps : List String
deriving DecidableEq

/-- The `SearchState` interface of `types.ts`. -/
structure SearchState where
  niche : String
  city : String
deriving DecidableEq

/-! ## `utils/leadAnalyzer.ts` -/

/-- Shallow embedding of `identifyOpportunities`: the three rule blocks push
their tags in declaration order, so the result is the ordered concatenation of
the three conditional singletons. -/
def identifyOpportunities (rating : ℚ) (reviews : ℚ) (hasWebsite : Bool) :
    List OpportunityType :=
  (if rating < LEAD_THRESHOLDS.LOW_REPUTATION_RATING then [OpportunityType.LOW_REPUTATION] else []) ++
  (if rating > LEAD_THRESHOLDS.UNDERVALUED_RATING ∧
      reviews < LEAD_THRESHOLDS.UNDERVALUED_MAX_REVIEWS then [OpportunityType.UNDERVALUED] else []) ++
  (if !hasWebsite then [OpportunityType.MISSING_INFO] else [])

/-- Shallow embedding of `generateLeadId`; `Date.now()` is passed in as `now`. -/
def generateLeadId (index : Nat) (now : Nat) : String :=
  "lead-" ++ toString index ++ "-" ++ toString now

/-! ## `services/geminiService.ts` — response shape and `findLeads`

The AI call itself is abstracted: each service function takes the call's
outcome (`Except` for a rejected promise) and models the code from the point
the response is available. `response.text` is optional, as in the SDK types.
-/

/-- The `chunk.web` payload of a grounding chunk. -/
structure WebChunkInfo where
  title : Option String
  uri : Option String

/-- One grounding chunk of the response metadata. -/
structure GroundingChunk where
  web : Option WebChunkInfo

/-- The grounding metadata of a response candidate. -/
structure GroundingMeta where
  groundingChunks : Option (List GroundingChunk)

/-- One response candidate. -/
structure Candidate where
  groundingMetadata : Option GroundingMeta

/-- An AI response: its text and its candidates (an absent candidates array is
modelled as the empty list, indistinguishable through the `?.[0]` chain). -/
structure AIResponse where
  text : Option String
  candidates : List Candidate

/-- One mapped lead of the `findLeads` in `services/geminiService.ts` (the
file's inline rule blocks, evaluated on the raw record before defaulting). -/
def leadOfRawLegacy (now : Nat) (index : Nat) (item : Json) : BusinessLead :=
  let opportunities :=
    (if jsNumLt (jsGet item ("rating")) 40 1 then [OpportunityType.LOW_REPUTATION] else []) ++
    (if jsNumGt (jsGet item ("rating")) 45 1 && jsNumLt (jsGet item ("reviews")) 20 0 then
      [OpportunityType.UNDERVALUED] else []) ++
    (if !jsTruthy (jsGet item ("website")) then [OpportunityType.MISSING_INFO] else [])
  { id := "lead-" ++ toString index ++ "-" ++ toString now
    name := jsStrOrEmpty (jsGet item ("name"))
    address := jsStrOrEmpty (jsGet item ("address"))
    rating := jsNumOrZero (jsGet item ("rating"))
    reviews := jsNumOrZero (jsGet item ("reviews"))
    website := jsStrField (jsGet item ("website"))
    opportunities := opportunities }

/-- Response processing of `findLeads` (`services/geminiService.ts` lines
16-35): default the text to `"[]"`, extract an array fragment with the greedy
regular expression, `JSON.parse` it with no protection (an invalid fragment
throws, rejecting the promise), and map the records. -/
def findLeadsLegacy (now : Nat) (respText : Option String) :
    Except String (List BusinessLead) :=
  let text := jsOrStr respText ("[]")
  let jsonMatch := greedySpan '[' ']' text.data
  match jsonParseChars (jsonMatch.getD ("[]").data) with
  | none => .error ("SyntaxError: unexpected token in JSON")
  | some rawData =>
    match rawData with
    | .arr items => .ok (items.mapIdx (fun i item => leadOfRawLegacy now i item))
    | _ => .error ("TypeError: rawData.map is not a function")

/-- One mapped lead of the refactored `findLeads` variant in the repository,
which classifies through `identifyOpportunities` on the defaulted values. -/
def leadOfRawRefactored (now : Nat) (index : Nat) (item : Json) : BusinessLead :=
  let opportunities :=
    identifyOpportunities (jsNumOrZero (jsGet item ("rating")))
      (jsNumOrZero (jsGet item ("reviews"))) (jsTruthy (jsGet item ("website")))
  { id := generateLeadId index now
    name := jsStrOrEmpty (jsGet item ("name"))
    address := jsStrOrEmpty (jsGet item ("address"))
    rating := jsNumOrZero (jsGet item ("rating"))
    reviews := jsNumOrZero (jsGet item ("reviews"))
    website := jsStrField (jsGet item ("website"))
    opportunities := opportunities }

/-- Response processing of the repository's refactored `findLeads` variant:
`safeJsonParse` with fallback `[]`, then the same mapping. When the coerced
value is not an array (an object-bearing text), `.map` throws a `TypeError`. -/
def findLeadsRefactored (now : Nat) (respText : Option String) :
    Except String (List BusinessLead) :=
  let text := jsOrStr respText ("[]")
  match safeJsonParse text (Json.arr []) with
  | .arr items => .ok (items.mapIdx (fun i item => leadOfRawRefactored now i item))
  | _ => .error ("TypeError: rawData.map is not a function")

/-! ## `services/geminiService.ts` — `auditBusiness` -/

/-- The citation extraction of `auditBusiness`: the optional chain
`response.candidates?.[0]?.groundingMetadata?.groundingChunks`, then
`.filter(chunk => chunk.web)` and the title/uri defaulting, with `|| []`
catching every absent link of the chain. -/
def extractSources (resp : AIResponse) : List WebSource :=
  match resp.candidates.head? with
  | none => []
  | some cand =>
    match cand.groundingMetadata with
    | none => []
    | some gm =>
      match gm.groundingChunks with
      | none => []
      | some chunks =>
        (chunks.filter (fun ch => ch.web.isSome)).map (fun ch =>
          match ch.web with
          | some w => { title := jsOrStr w.title ("Source"), uri := jsOrStr w.uri ("#") }
          | none => { title := "Source", uri := "#" })

/-- Elements of a parsed gaps array as strings. The TypeScript code assigns
the parse result to `string[]` with no runtime check; non-string elements are
outside the modelled scope and read as empty strings. -/
def gapStrings (j : Json) : List String :=
  match j with
  | .arr xs => xs.map (fun x => match x with | .str s => s | _ => "")
  | _ => []

/-- Response processing of `auditBusiness` (`services/geminiService.ts` lines
38-87), abstracted over the two AI call outcomes: a rejected Phase 1 or
Phase 2 promise propagates, the gaps text defaults to `"[]"`, the array
fragment is extracted greedily and fed to an unprotected `JSON.parse` (an
invalid fragment throws, rejecting the audit promise). -/
def auditBusinessLegacy (p1 : Except String AIResponse) (p2 : Except String AIResponse) :
    Except String BusinessAudit := do
  let response ← p1
  let sources := extractSources response
  let gapsResponse ← p2
  let gapsText := jsOrStr gapsResponse.text ("[]")
  let gapsMatch := greedySpan '[' ']' gapsText.data
  match jsonParseChars (gapsMatch.getD ("[]").data) with
  | none => .error ("SyntaxError: unexpected token in JSON")
  | some g =>
    .ok { content := jsOrStr response.text ("No audit data available.")
          sources := sources
          gaps := gapStrings g }

/-- Response processing of the repository's refactored `auditBusiness`
variant, identical except that the gaps go through `safeJsonParse` with
fallback `[]`, so a Phase 2 parse failure degrades to an empty gaps list. -/
def auditBusinessRefactored (p1 : Except String AIResponse) (p2 : Except String AIResponse) :
    Except String BusinessAudit := do
  let response ← p1
  let sources := extractSources response
  let gapsResponse ← p2
  let gapsText := jsOrStr gapsResponse.text ("[]")
  let gaps := gapStrings (safeJsonParse gapsText (Json.arr []))
  .ok { content := jsOrStr response.text ("No audit data available.")
        sources := sources
        gaps := gaps }

/-! ## `services/geminiService.ts` — `generatePitch` -/

/-- The pitch prompt (`services/geminiService.ts` lines 100-123), transcribed
with the same branch structure; numeric interpolations use the rational's
string form where JavaScript would format the number. -/
def pitchPrompt (lead : BusinessLead) (audit : BusinessAudit)
    (pitchFocus tone length : String) : String :=
  let isWebsiteFocus := pitchFocus = "website"
  "You are a world-class sales copywriter for an agency specializing in " ++
  (if isWebsiteFocus then "Website Design and Digital Authority" else "AI-Driven Business Automation") ++
  ". \n  Write a high-converting, personalized cold pitch to the business owner of \"" ++
  lead.name ++ "\".\n  \n  STRICT CONSTRAINTS:\n  - TONE: " ++ tone ++
  "\n  - LENGTH: " ++ length ++ "\n  \n  " ++
  (if isWebsiteFocus then
    "\n  PRIMARY FOCUS: Website Launchpad. \n  MESSAGE: I noticed you don\x27t have an official website yet. In today\x27s market, you\x27re losing customers to competitors who are easier to find online. I want to build you a high-performance \"digital storefront\" that captures leads 24/7.\n  VALUE: Social proof, SEO visibility, and a professional brand image.\n  "
   else
    "\n  PRIMARY FOCUS: AI Automation.\n  MESSAGE: I noticed several manual gaps in your digital workflow (e.g., " ++
    String.intercalate (", ") audit.gaps ++
    "). We implement AI solutions like automated booking and 24/7 chatbots that act as a full-time employee for a fraction of the cost.\n  VALUE: Scalability, efficiency, and instant response times.\n  ") ++
  "\n\n  Context from Audit:\n  - Rating: " ++ toString lead.rating ++ " stars with " ++
  toString lead.reviews ++ " reviews.\n  - Audit Data: " ++ audit.content ++
  "\n  - Identified Missing Assets: " ++ String.intercalate (", ") audit.gaps ++
  "\n  \n  GOAL: Get them to reply or book a quick 10-minute audit call.\n  Make it clear you\x27ve researched them specifically."

/-- Shallow embedding of `generatePitch` (`services/geminiService.ts` lines
89-131, identical in the refactored variant): build the prompt, make the
tool-free AI call, and return its text, or the fixed fallback sentence when
the provider returns empty or absent text. The defaults of the TypeScript
signature are `automation`, `Professional`, `Medium`. -/
def generatePitch (complete : String → Except String AIResponse)
    (lead : BusinessLead) (audit : BusinessAudit)
    (pitchFocus tone length : String) : Except String String := do
  let response ← complete (pitchPrompt lead audit pitchFocus tone length)
  .ok (jsOrStr response.text ("Failed to generate pitch."))

/-! ## `hooks/useLeads.ts` as a small-step state machine

Each hook callback is an `async` function: its synchronous prefix (state
updates before the first `await`) runs atomically on the event loop, and the
continuation after the `await` runs atomically when the underlying promise
settles. The machine below makes that explicit: starting an action applies
the synchronous prefix and queues a pending operation carrying the values the
continuation closed over; resolving a pending operation applies the
continuation with the outcome the service environment assigns to the call.
Interleavings of overlapping requests are exactly choices of resolution
order. The service functions are abstracted as outcome environments. -/

/-- The `lastPitchConfig` record of the hook. -/
structure PitchConfig where
  focus : String
  tone : String
  length : String
deriving DecidableEq

/-- The state fields held by `useLeads` (`leads` is backed by local storage,
which is irrelevant to the claims and modelled as a plain field). -/
structure HookState where
  leads : List BusinessLead
  selectedLead : Option BusinessLead
  audit : Option BusinessAudit
  pitch : Option String
  loadingLeads : Bool
  loadingAudit : Bool
  loadingPitch : Bool
  error : Option String
  lastPitchConfig : Option PitchConfig
deriving DecidableEq

/-- The initial hook state. -/
def initialHookState : HookState :=
  { leads := []
    selectedLead := none
    audit := none
    pitch := none
    loadingLeads := false
    loadingAudit := false
    loadingPitch := false
    error := none
    lastPitchConfig := none }

/-- An in-flight asynchronous operation: which service call is pending and the
values its continuation closed over. -/
inductive PendingOp where
  | searchOp (niche city : String)
  | auditOp (lead : BusinessLead)
  | pitchOp (lead : BusinessLead) (audit : BusinessAudit) (cfg : PitchConfig)
deriving DecidableEq

/-- Outcomes the environment assigns to each service call. -/
structure ServiceEnv where
  findLeadsResult : String → String → Except String (List BusinessLead)
  auditResult : BusinessLead → Except String BusinessAudit
  pitchResult : BusinessLead → BusinessAudit → PitchConfig → Except String String

/-- A user action or the settling of one pending promise (by queue index). -/
inductive HookAction where
  | searchAction (s : SearchState)
  | selectLeadAction (lead : BusinessLead)
  | createPitchAction (focus tone length : String)
  | clearAction
  | resolveAction (i : Nat)

/-- A hook configuration: visible state plus the queue of pending operations. -/
structure HookConfig where
  state : HookState
  pending : List PendingOp
deriving DecidableEq

/-- The synchronous prefix of `performSearch` (lines 16-33): guard on empty
niche or city (falsy strings), then set loading, clear the error and clear
selected lead, audit, pitch and pitch config before the `findLeads` call. -/
def startSearch (s : SearchState) (c : HookConfig) : HookConfig :=
  if s.niche = "" ∨ s.city = "" then c
  else
    { state := { c.state with
        loadingLeads := true
        error := none
        selectedLead := none
        audit := none
        pitch := none
        lastPitchConfig := none }
      pending := c.pending ++ [.searchOp s.niche s.city] }

/-- The synchronous prefix of `performAudit` (lines 35-51): select the lead,
clear audit, pitch and pitch config, set loading, clear the error, and issue
the audit call. No request token is recorded. -/
def startAudit (lead : BusinessLead) (c : HookConfig) : HookConfig :=
  { state := { c.state with
      selectedLead := some lead
      audit := none
      pitch := none
      lastPitchConfig := none
      loadingAudit := true
      error := none }
    pending := c.pending ++ [.auditOp lead] }

/-- The synchronous prefix of `createPitch` (lines 53-67): guard on a missing
selected lead or audit, set loading, clear the error, record the pitch
config, and issue the call with the currently selected lead and audit. -/
def startPitch (focus tone length : String) (c : HookConfig) : HookConfig :=
  match c.state.selectedLead, c.state.audit with
  | some lead, some aud =>
    let cfg : PitchConfig := { focus := focus, tone := tone, length := length }
    { state := { c.state with
        loadingPitch := true
        error := none
        lastPitchConfig := some cfg }
      pending := c.pending ++ [.pitchOp lead aud cfg] }
  | _, _ => c

/-- `clearSelectedLead` (lines 75-81). -/
def clearSelected (c : HookConfig) : HookConfig :=
  { state := { c.state with
      selectedLead := none
      audit := none
      pitch := none
      lastPitchConfig := none
      error := none }
    pending := c.pending }

/-- The continuation of one settled call: the `try/catch/finally` tail of the
corresponding hook callback. The audit continuation applies its result
unconditionally — the hook compares no token before `setAudit(result)`. -/
def resolveOp (env : ServiceEnv) (op : PendingOp) (st : HookState) : HookState :=
  match op with
  | .searchOp niche city =>
    (match env.findLeadsResult niche city with
     | .ok results => { st with leads := results, loadingLeads := false }
     | .error e =>
       { st with
         error := some (jsOrStr (some e) ("Failed to fetch leads. Check your connection."))
         loadingLeads := false })
  | .auditOp lead =>
    (match env.auditResult lead with
     | .ok result => { st with audit := some result, loadingAudit := false }
     | .error _ =>
       { st with
         error := some ("Audit failed. The business data might be restricted.")
         loadingAudit := false })
  | .pitchOp lead aud cfg =>
    (match env.pitchResult lead aud cfg with
     | .ok result => { st with pitch := some result, loadingPitch := false }
     | .error _ =>
       { st with error := some ("Pitch generation failed."), loadingPitch := false })

/-- One step of the hook machine. -/
def hookStep (env : ServiceEnv) (c : HookConfig) : HookAction → HookConfig
  | .searchAction s => startSearch s c
  | .selectLeadAction lead => startAudit lead c
  | .createPitchAction focus tone length => startPitch focus tone length c
  | .clearAction => clearSelected c
  | .resolveAction i =>
    match c.pending.get? i with
    | none => c
    | some op => { state := resolveOp env op c.state, pending := c.pending.eraseIdx i }

/-- Run a sequence of steps. -/
def hookRun (env : ServiceEnv) (c : HookConfig) (acts : List HookAction) : HookConfig :=
  acts.foldl (hookStep env) c

/-! ## Auxiliary predicates for the roundtrip development -/

/-- A remainder that cannot extend a rendered number literal: empty, or headed
by a character that is neither a digit nor `.`, `e`, `E`. Every JSON
separator (comma, closing bracket, closing brace, end of input) qualifies. -/
def numStop : List Char → Bool
  | [] => true
  | c :: _ => !(decDigit c || c = '.' || c = 'e' || c = 'E')

/-! ## Specification-side classifier table

`specTagRule` and `specTagOrder` are modelled from the specification's
classification rules (its section 4.2), not from the code: a claim compares
`identifyOpportunities` against this declarative rule-table form. -/

/-- Modelled from the spec: each tag's rule, evaluated independently of the
others on the (rating, reviews, website-presence) triple. -/
def specTagRule (rating reviews : ℚ) (hasWebsite : Bool) : OpportunityType → Bool
  | .LOW_REPUTATION => decide (rating < 4.0)
  | .UNDERVALUED => decide (rating > 4.5) && decide (reviews < 20)
  | .MISSING_INFO => !hasWebsite

/-- Modelled from the spec: the declared fixed evaluation order of the tags. -/
def specTagOrder : List OpportunityType :=
  [OpportunityType.LOW_REPUTATION, OpportunityType.UNDERVALUED, OpportunityType.MISSING_INFO]

/-! ## Concrete scenario data used by the claim theorems -/

/-- The discovery text of the worked Smile Co example. -/
def smileCoText : String :=
  "[\x7b\"name\":\"Smile Co\",\"address\":\"1 Main St\",\"rating\":3.2,\"reviews\":40\x7d]"

/-- A discovery text whose one record has no `reviews` field. -/
def missingReviewsText : String :=
  "[\x7b\"name\":\"A\",\"address\":\"B\",\"rating\":4.9\x7d]"

/-- Lead A of the overlapping-audit scenario. -/
def leadAlpha : BusinessLead :=
  { id := "lead-A", name := "Alpha Dental", address := "1 First St", rating := 0,
    reviews := 0, website := none, opportunities := [] }

/-- Lead B of the overlapping-audit scenario. -/
def leadBravo : BusinessLead :=
  { id := "lead-B", name := "Bravo Dental", address := "2 Second St", rating := 0,
    reviews := 0, website := none, opportunities := [] }

/-- The audit the environment returns for lead A. -/
def auditOfAlpha : BusinessAudit := { content := "audit of Alpha", sources := [], gaps := [] }

/-- The audit the environment returns for lead B. -/
def auditOfBravo : BusinessAudit := { content := "audit of Bravo", sources := [], gaps := [] }

/-- A service environment that answers each audit call with the audit of the
requested lead. -/
def raceEnv : ServiceEnv :=
  { findLeadsResult := fun _ _ => Except.ok []
    auditResult := fun lead =>
      if lead.id = "lead-A" then Except.ok auditOfAlpha else Except.ok auditOfBravo
    pitchResult := fun _ _ _ => Except.ok ("pitch") }

/-- Overlapping audit requests: the user selects lead A, then lead B before
A's call settles; B's call settles first and A's stale call settles last. -/
def raceTrace : List HookAction :=
  [HookAction.selectLeadAction leadAlpha, HookAction.selectLeadAction leadBravo,
   HookAction.resolveAction 1, HookAction.resolveAction 0]

/-- The hook configuration the race leaves behind. -/
def raceFinal : HookConfig :=
  hookRun raceEnv { state := initialHookState, pending := [] } raceTrace

/-- A hook configuration in which a selected lead, an audit, a pitch and a
pitch configuration are all present. -/
def dirtyConfig : HookConfig :=
  { state := { initialHookState with
      leads := [leadAlpha]
      selectedLead := some leadAlpha
      audit := some auditOfAlpha
      pitch := some ("old pitch")
      lastPitchConfig := some { focus := "automation", tone := "Formal", length := "Short" } }
    pending := [] }

/-- A Phase 1 audit response with text and no grounding chunks. -/
def phase1Resp : AIResponse := { text := some ("Audit text"), candidates := [] }

/-- A Phase 2 response whose text bears a bracketed fragment that is not
valid JSON. -/
def gapsCrashResp : AIResponse := { text := some ("[oops]"), candidates := [] }

/-- A Phase 2 response whose text bears no bracketed fragment at all. -/
def gapsProseResp : AIResponse := { text := some ("there are no further gaps"), candidates := [] }

/-- A provider response with non-empty pitch text. -/
def pitchHelloResp : AIResponse := { text := some ("Hello pitch"), candidates := [] }

/-! ## Digit lemmas -/

theorem digitChar_spec (k : Nat) (h : k < 10) :
    digitVal (digitChar k) = k ∧ decDigit (digitChar k) = true := by
  interval_cases k <;> exact ⟨by decide, by decide⟩

theorem digitChar_ne_zero (k : Nat) (h1 : 1 ≤ k) (h2 : k < 10) : digitChar k ≠ '0' := by
  interval_cases k <;> decide

/-- Fuel does not matter for the digit renderer once it covers the argument. -/
theorem natChars_go_irrel : ∀ f1 f2 n, n < f1 → n < f2 → natChars.go f1 n = natChars.go f2 n := by
  intro f1
  induction f1 with
  | zero => intro f2 n h1; omega
  | succ f ih =>
    intro f2 n h1 h2
    match f2, h2 with
    | g + 1, _ =>
      simp only [natChars.go]
      by_cases h10 : n < 10
      · simp [h10]
      · have hlt : n / 10 < f := by omega
        have hlt2 : n / 10 < g := by omega
        simp only [if_neg h10, ih g (n / 10) hlt hlt2]

/-- One unfolding of `natChars`, last digit split off. -/
theorem natChars_unfold (n : Nat) :
    natChars n = (if n < 10 then [] else natChars (n / 10)) ++ [digitChar (n % 10)] := by
  show natChars.go (n + 1) n = _
  simp only [natChars.go]
  by_cases h10 : n < 10
  · simp [h10, Nat.mod_eq_of_lt h10]
  · have h1 : n / 10 < n := Nat.div_lt_self (by omega) (by omega)
    simp only [if_neg h10]
    rw [show natChars.go n (n / 10) = natChars.go (n / 10 + 1) (n / 10) from
      natChars_go_irrel n (n / 10 + 1) (n / 10) (by omega) (by omega)]
    simp [natChars]

theorem natChars_ne_nil (n : Nat) : natChars n ≠ [] := by
  rw [natChars_unfold]; simp

theorem natChars_digits (n : Nat) : ∀ c ∈ natChars n, decDigit c = true := by
  induction n using Nat.strongRecOn with
  | _ n ih =>
    rw [natChars_unfold]
    intro c hc
    rcases List.mem_append.mp hc with h | h
    · by_cases h10 : n < 10
      · simp [h10] at h
      · exact ih (n / 10) (Nat.div_lt_self (by omega) (by omega)) c (by simpa [h10] using h)
    · rw [List.mem_singleton] at h
      subst h
      exact (digitChar_spec (n % 10) (Nat.mod_lt _ (by omega))).2

/-- Pushing an accumulator through the digit fold. -/
theorem digitsVal_from (xs : List Char) :
    ∀ a, xs.foldl (fun a c => 10 * a + digitVal c) a = a * 10 ^ xs.length + digitsVal xs := by
  induction xs with
  | nil => intro a; simp [digitsVal]
  | cons c xs ih =>
    intro a
    have hx := ih (10 * a + digitVal c)
    have h0 := ih (digitVal c)
    simp only [List.foldl_cons, List.length_cons]
    rw [hx]
    have hdv : digitsVal (c :: xs) = digitVal c * 10 ^ xs.length + digitsVal xs := by
      simp only [digitsVal, List.foldl_cons]
      simpa using h0
    rw [hdv]
    ring

theorem digitsVal_append (xs ys : List Char) :
    digitsVal (xs ++ ys) = digitsVal xs * 10 ^ ys.length + digitsVal ys := by
  simp only [digitsVal, List.foldl_append]
  rw [show (ys.foldl (fun a c => 10 * a + digitVal c)
    (xs.foldl (fun a c => 10 * a + digitVal c) 0)) = _ from digitsVal_from ys _]
  rfl

theorem digitsVal_replicate_zero (j : Nat) (xs : List Char) :
    digitsVal (List.replicate j '0' ++ xs) = digitsVal xs := by
  induction j with
  | zero => simp
  | succ k ih =>
    simp only [List.replicate_succ, List.cons_append, digitsVal, List.foldl_cons] at *
    simpa [digitVal] using ih

theorem digitsVal_singleton (c : Char) : digitsVal [c] = digitVal c := by
  simp [digitsVal]

theorem digitsVal_natChars (n : Nat) : digitsVal (natChars n) = n := by
  induction n using Nat.strongRecOn with
  | _ n ih =>
    rw [natChars_unfold, digitsVal_append, digitsVal_singleton,
      (digitChar_spec (n % 10) (Nat.mod_lt _ (by omega))).1]
    by_cases h10 : n < 10
    · simp only [if_pos h10]
      simp [digitsVal]
      omega
    · simp only [if_neg h10]
      rw [ih (n / 10) (Nat.div_lt_self (by omega) (by omega))]
      simp only [List.length_singleton, pow_one]
      omega

theorem natChars_head_ne_zero (n : Nat) (hn : 1 ≤ n) :
    ∀ d t, natChars n = d :: t → d ≠ '0' := by
  induction n using Nat.strongRecOn with
  | _ n ih =>
    intro d t hdt
    rw [natChars_unfold] at hdt
    by_cases h10 : n < 10
    · simp only [if_pos h10, List.nil_append, List.cons.injEq] at hdt
      rw [← hdt.1, Nat.mod_eq_of_lt h10]
      exact digitChar_ne_zero n hn h10
    · simp only [if_neg h10] at hdt
      match hh : natChars (n / 10) with
      | [] => exact absurd hh (natChars_ne_nil _)
      | c :: cs =>
        rw [hh, List.cons_append, List.cons.injEq] at hdt
        rw [← hdt.1]
        exact ih (n / 10) (Nat.div_lt_self (by omega) (by omega))
          (Nat.one_le_div_iff (by omega) |>.mpr (by omega)) c cs hh

theorem natChars_length_le : ∀ k n, n < 10 ^ k → 1 ≤ k → (natChars n).length ≤ k := by
  intro k
  induction k with
  | zero => omega
  | succ j ih =>
    intro n hn _
    rw [natChars_unfold]
    by_cases h10 : n < 10
    · simp only [if_pos h10, List.nil_append, List.length_singleton]
      omega
    · have hj : 1 ≤ j := by
        by_contra hj0
        have : j = 0 := by omega
        subst this
        simp [pow_succ] at hn
        omega
      have hdiv : n / 10 < 10 ^ j := by
        rw [Nat.div_lt_iff_lt_mul (by omega)]
        calc n < 10 ^ (j + 1) := hn
        _ = 10 ^ j * 10 := by ring
      have := ih (n / 10) hdiv hj
      simp only [if_neg h10, List.length_append, List.length_singleton]
      omega

/-! ## Digit-run and number-delimiter lemmas -/

theorem decDigit_ne {c : Char} (h : decDigit c = true) (x : Char) (hx : decDigit x = false) :
    c ≠ x := by
  intro he
  subst he
  simp [h] at hx

theorem jsonWs_of_digit {c : Char} (h : decDigit c = true) : jsonWs c = false := by
  simp only [jsonWs, Bool.or_eq_false_iff, decide_eq_false_iff_not]
  refine ⟨⟨⟨?_, ?_⟩, ?_⟩, ?_⟩ <;> intro he <;> (subst he; exact absurd h (by decide))

theorem takeDigits_no_head {c : Char} {t : List Char} (h : decDigit c = false) :
    takeDigits (c :: t) = ([], c :: t) := by
  simp [takeDigits, h]

theorem numStop_head {c : Char} {t : List Char} (h : numStop (c :: t) = true) :
    decDigit c = false ∧ c ≠ '.' ∧ c ≠ 'e' ∧ c ≠ 'E' := by
  simp only [numStop, Bool.not_eq_true', Bool.or_eq_false_iff, decide_eq_false_iff_not] at h
  exact ⟨h.1.1.1, h.1.1.2, h.1.2, h.2⟩

theorem takeDigits_stop : ∀ {cs : List Char}, numStop cs = true → takeDigits cs = ([], cs)
  | [], _ => rfl
  | _ :: _, h => takeDigits_no_head (numStop_head h).1

theorem takeDigits_run (ds : List Char) (hds : ∀ c ∈ ds, decDigit c = true)
    {rs : List Char} (hrs : takeDigits rs = ([], rs)) :
    takeDigits (ds ++ rs) = (ds, rs) := by
  induction ds with
  | cons c t ih =>
    have hc : decDigit c = true := hds c (by simp)
    have htl := ih (fun x hx => hds x (by simp [hx]))
    simp [takeDigits, hc, htl]
  | nil => simpa using hrs

theorem parseFracPart_stop : ∀ {cs : List Char}, numStop cs = true →
    parseFracPart cs = some ([], cs)
  | [], _ => rfl
  | c :: t, h => by
    obtain ⟨_, hdot, _, _⟩ := numStop_head h
    rw [parseFracPart.eq_def]
    split
    · rename_i heq
      rw [List.cons.injEq] at heq
      exact absurd heq.1 hdot
    · rfl

theorem parseExpPart_stop : ∀ {cs : List Char}, numStop cs = true →
    parseExpPart cs = some (0, cs)
  | [], _ => rfl
  | c :: t, h => by
    obtain ⟨_, _, he, hE⟩ := numStop_head h
    rw [parseExpPart.eq_def]
    split
    · rename_i heq
      rw [List.cons.injEq] at heq
      exact absurd heq.1 he
    · rename_i heq
      rw [List.cons.injEq] at heq
      exact absurd heq.1 hE
    · rfl

theorem splitSign_minus (t : List Char) : splitSign ('-' :: t) = (true, t) := rfl

theorem splitSign_digit {d : Char} (hd : decDigit d = true) (t : List Char) :
    splitSign (d :: t) = (false, d :: t) := by
  rw [splitSign.eq_def]
  split
  · rename_i heq
    rw [List.cons.injEq] at heq
    exact absurd heq.1 (decDigit_ne hd '-' (by decide))
  · rfl

/-! ## Number codec roundtrip -/

/-- The fraction digit block of `serNumAbs` for a positive scale. -/
theorem fracBlock_spec (n e : Nat) (he : 1 ≤ e) :
    (List.replicate (e - (natChars (n % 10 ^ e)).length) '0' ++ natChars (n % 10 ^ e)).length = e ∧
    (∀ c ∈ List.replicate (e - (natChars (n % 10 ^ e)).length) '0' ++ natChars (n % 10 ^ e),
      decDigit c = true) ∧
    digitsVal (List.replicate (e - (natChars (n % 10 ^ e)).length) '0' ++ natChars (n % 10 ^ e))
      = n % 10 ^ e := by
  have hmod : n % 10 ^ e < 10 ^ e := Nat.mod_lt _ (by positivity)
  have hlen : (natChars (n % 10 ^ e)).length ≤ e := natChars_length_le e _ hmod he
  refine ⟨?_, ?_, ?_⟩
  · simp only [List.length_append, List.length_replicate]
    omega
  · intro c hc
    rcases List.mem_append.mp hc with h | h
    · rw [List.eq_of_mem_replicate h]; decide
    · exact natChars_digits _ c h
  · rw [digitsVal_replicate_zero, digitsVal_natChars]

/-- The leading-zero guard never fires on rendered digits: those are a single
zero or start with a nonzero digit. -/
theorem leadZeroBad_natChars (k : Nat) : leadZeroBad (natChars k) = false := by
  match h0 : natChars k with
  | [] => exact absurd h0 (natChars_ne_nil k)
  | [d] =>
    rw [leadZeroBad.eq_def]
    split
    · rename_i heq
      simp at heq
    · rfl
  | d :: d2 :: t =>
    have hk : 1 ≤ k := by
      by_contra hk0
      have : k = 0 := by omega
      subst this
      rw [show natChars 0 = ['0'] from rfl] at h0
      simp at h0
    have hd : d ≠ '0' := natChars_head_ne_zero k hk d (d2 :: t) h0
    rw [leadZeroBad.eq_def]
    split
    · rename_i heq
      rw [List.cons.injEq] at heq
      exact absurd heq.1 hd
    · rfl

/-- The leading-zero branch of `parseNum` is never taken on rendered digits. -/
theorem ifLeadZero_natChars {α : Sort _} (k : Nat) (a b : α) :
    (if leadZeroBad (natChars k) then a else b) = b := by
  simp [leadZeroBad_natChars]

/-- The number codec roundtrip: `parseNum` recovers exactly the mantissa and
scale `serNum` rendered, whenever the remainder cannot extend the literal. -/
theorem parseNum_serNum (m : Int) (e : Nat) (rest : List Char) (hr : numStop rest = true) :
    parseNum (serNum m e ++ rest) = some ((m, e), rest) := by
  have hbase : ((if decide (m < 0) = true then (-1 : Int) else 1) * (m.natAbs : Int)) = m := by
    by_cases hm : m < 0
    · rw [if_pos (decide_eq_true hm)]
      omega
    · rw [if_neg (by simpa using hm)]
      omega
  rcases Nat.eq_zero_or_pos e with he | he
  · -- no fractional part: sign ++ digits
    subst he
    have hdig := natChars_digits m.natAbs
    obtain ⟨d0, t0, h0⟩ : ∃ d0 t0, natChars m.natAbs = d0 :: t0 := by
      match hh : natChars m.natAbs with
      | [] => exact absurd hh (natChars_ne_nil _)
      | c :: cs => exact ⟨c, cs, rfl⟩
    have hsp : splitSign (serNum m 0 ++ rest) =
        (decide (m < 0), natChars m.natAbs ++ rest) := by
      by_cases hm : m < 0
      · simp [serNum, serNumAbs, hm, splitSign_minus]
      · have hser : serNum m 0 ++ rest = natChars m.natAbs ++ rest := by
          simp [serNum, hm, serNumAbs]
        rw [hser, h0, List.cons_append,
          splitSign_digit (hdig d0 (by rw [h0]; simp)) (t0 ++ rest)]
        simp [hm]
    have htd : takeDigits (natChars m.natAbs ++ rest) = (natChars m.natAbs, rest) :=
      takeDigits_run _ hdig (takeDigits_stop hr)
    simp only [parseNum, hsp, htd, if_neg (natChars_ne_nil m.natAbs), ifLeadZero_natChars,
      parseFracPart_stop hr, parseExpPart_stop hr,
      Option.bind_eq_bind, Option.some_bind, List.append_nil, digitsVal_natChars,
      List.length_nil, Nat.cast_zero, sub_zero, hbase, if_pos (le_refl (0 : Int)),
      Int.toNat_zero, pow_zero, mul_one]
  · -- fractional part present
    set F := List.replicate (e - (natChars (m.natAbs % 10 ^ e)).length) '0' ++
      natChars (m.natAbs % 10 ^ e) with hF
    obtain ⟨hFlen, hFdig, hFval⟩ := fracBlock_spec m.natAbs e he
    rw [← hF] at hFlen hFdig hFval
    have habs : serNumAbs m.natAbs e ++ rest =
        natChars (m.natAbs / 10 ^ e) ++ ('.' :: (F ++ rest)) := by
      simp [serNumAbs, Nat.pos_iff_ne_zero.mp he, hF]
    have hdig := natChars_digits (m.natAbs / 10 ^ e)
    obtain ⟨d0, t0, h0⟩ : ∃ d0 t0, natChars (m.natAbs / 10 ^ e) = d0 :: t0 := by
      match hh : natChars (m.natAbs / 10 ^ e) with
      | [] => exact absurd hh (natChars_ne_nil _)
      | c :: cs => exact ⟨c, cs, rfl⟩
    have hsp : splitSign (serNum m e ++ rest) =
        (decide (m < 0), serNumAbs m.natAbs e ++ rest) := by
      by_cases hm : m < 0
      · simp [serNum, hm, splitSign_minus]
      · have hser : serNum m e ++ rest = serNumAbs m.natAbs e ++ rest := by
          simp [serNum, hm]
        rw [hser, habs, h0, List.cons_append,
          splitSign_digit (hdig d0 (by rw [h0]; simp)) _]
        simp [hm]
    have htd : takeDigits (serNumAbs m.natAbs e ++ rest) =
        (natChars (m.natAbs / 10 ^ e), '.' :: (F ++ rest)) := by
      rw [habs]
      exact takeDigits_run _ hdig (takeDigits_no_head (by decide))
    have hFne : F ≠ [] := by
      intro hFe
      rw [hFe] at hFlen
      simp at hFlen
      omega
    have htdF : takeDigits (F ++ rest) = (F, rest) :=
      takeDigits_run _ hFdig (takeDigits_stop hr)
    have hfp : parseFracPart ('.' :: (F ++ rest)) = some (F, rest) := by
      simp [parseFracPart, htdF, hFne]
    have hsum : m.natAbs / 10 ^ e * 10 ^ e + m.natAbs % 10 ^ e = m.natAbs := by
      rw [Nat.mul_comm]
      exact Nat.div_add_mod _ _
    have hneg : ¬(0 ≤ (0 : Int) - (e : Int)) := by omega
    have htn : (-((0 : Int) - (e : Int))).toNat = e := by omega
    simp only [parseNum, hsp, htd, if_neg (natChars_ne_nil _), ifLeadZero_natChars,
      hfp, parseExpPart_stop hr, Option.bind_eq_bind, Option.some_bind,
      digitsVal_append, hFlen, hFval, digitsVal_natChars, hsum, hbase,
      if_neg hneg, htn]

/-! ## String codec roundtrip -/

theorem hexChar_spec (k : Nat) (h : k < 16) : hexVal (hexChar k) = some k := by
  interval_cases k <;> decide

/-- Parsing one escaped character undoes the escaping. -/
theorem parseStrBody_escCh (c : Char) (rest : List Char) :
    parseStrBody (escCh c ++ rest) = (parseStrBody rest).map (fun p => (c :: p.1, p.2)) := by
  by_cases h1 : c = '"'
  · subst h1
    cases hp : parseStrBody rest <;> simp [escCh, parseStrBody, unescCh, hp]
  by_cases h2 : c = '\\'
  · subst h2
    cases hp : parseStrBody rest <;> simp [escCh, parseStrBody, unescCh, hp]
  by_cases h3 : c.toNat = 8
  · have hc : Char.ofNat 8 = c := by rw [← h3, Char.ofNat_toNat]
    cases hp : parseStrBody rest <;>
      (simp [escCh, h1, h2, h3, parseStrBody, unescCh, hp]; try exact hc)
  by_cases h4 : c = '\t'
  · subst h4
    cases hp : parseStrBody rest <;> simp [escCh, parseStrBody, unescCh, hp]
  by_cases h5 : c = '\n'
  · subst h5
    cases hp : parseStrBody rest <;> simp [escCh, parseStrBody, unescCh, hp]
  by_cases h6 : c.toNat = 12
  · have hc : Char.ofNat 12 = c := by rw [← h6, Char.ofNat_toNat]
    cases hp : parseStrBody rest <;>
      (simp [escCh, h1, h2, h3, h4, h5, h6, parseStrBody, unescCh, hp]; try exact hc)
  by_cases h7 : c = '\r'
  · subst h7
    cases hp : parseStrBody rest <;> simp [escCh, parseStrBody, unescCh, hp]
  by_cases h8 : c.toNat < 32
  · have hdiv : c.toNat / 16 < 16 := by omega
    have hmod : c.toNat % 16 < 16 := by omega
    have hval : ((0 * 16 + 0) * 16 + c.toNat / 16) * 16 + c.toNat % 16 = c.toNat := by omega
    have hval2 : c.toNat / 16 * 16 + c.toNat % 16 = c.toNat := by omega
    have hesc : escCh c = ['\\', 'u', '0', '0', hexChar (c.toNat / 16), hexChar (c.toNat % 16)] := by
      simp [escCh, h1, h2, h3, h4, h5, h6, h7, h8]
    have h0v : hexVal '0' = some 0 := by decide
    rw [hesc]
    cases hp : parseStrBody rest <;>
      simp [parseStrBody, h0v, hexChar_spec _ hdiv, hexChar_spec _ hmod, hp, hval, hval2,
        Char.ofNat_toNat]
  · have hesc : escCh c = [c] := by
      simp [escCh, h1, h2, h3, h4, h5, h6, h7, h8]
    rw [hesc, List.singleton_append, parseStrBody.eq_def]
    split
    · rename_i heq
      rw [List.cons.injEq] at heq
      exact absurd heq.1 h1
    · rename_i heq
      rw [List.cons.injEq] at heq
      exact absurd heq.1 h2
    · rename_i heq
      rw [List.cons.injEq] at heq
      exact absurd heq.1 h2
    · rename_i c' rest' heq
      rw [List.cons.injEq] at heq
      obtain ⟨hc', hr'⟩ := heq
      subst hc'
      subst hr'
      rw [if_neg h8]
      cases hp : parseStrBody rest <;> simp [hp]
    · rename_i heq
      exact absurd heq (by simp)

/-- Parsing an escaped run stops exactly at the closing quote. -/
theorem parseStrBody_escChars (s : List Char) (rest : List Char) :
    parseStrBody (escChars s ++ '"' :: rest) = some (s, rest) := by
  induction s with
  | nil => simp [escChars, parseStrBody]
  | cons c t ih =>
    rw [escChars, List.append_assoc, parseStrBody_escCh, ih]
    rfl

/-- Structure eta: rebuilding a string from its characters is the identity. -/
theorem stringMk_data (s : String) : String.mk s.data = s := rfl

/-! ## Rendered-value head analysis -/

/-- The rendered absolute number starts with a digit. -/
theorem serNumAbs_head (n e : Nat) :
    ∃ d t, serNumAbs n e = d :: t ∧ decDigit d = true := by
  by_cases he : e = 0
  · subst he
    simp only [serNumAbs, if_pos rfl]
    match hh : natChars n with
    | [] => exact absurd hh (natChars_ne_nil n)
    | c :: cs => exact ⟨c, cs, rfl, natChars_digits n c (by rw [hh]; simp)⟩
  · simp only [serNumAbs, if_neg he]
    match hh : natChars (n / 10 ^ e) with
    | [] => exact absurd hh (natChars_ne_nil _)
    | c :: cs =>
      exact ⟨c, cs ++ '.' :: (List.replicate (e - (natChars (n % 10 ^ e)).length) '0'
        ++ natChars (n % 10 ^ e)), rfl, natChars_digits _ c (by rw [hh]; simp)⟩

/-- Every rendered value starts with a character that is no whitespace, no
closing bracket, and no comma. -/
theorem serVal_head (j : Json) :
    ∃ c t, serVal j = c :: t ∧ jsonWs c = false ∧ c ≠ ']' ∧ c ≠ ',' := by
  cases j with
  | null => exact ⟨'n', _, rfl, by decide⟩
  | bool b =>
    cases b with
    | true => exact ⟨'t', _, rfl, by decide⟩
    | false => exact ⟨'f', _, rfl, by decide⟩
  | str s => exact ⟨'"', _, rfl, by decide⟩
  | arr xs => exact ⟨'[', _, rfl, by decide⟩
  | obj kvs => exact ⟨'\x7b', _, rfl, by decide⟩
  | num m e =>
    by_cases hm : m < 0
    · refine ⟨'-', serNumAbs m.natAbs e, ?_, by decide⟩
      simp [serVal, serNum, hm]
    · obtain ⟨d0, t0, h0, hd0⟩ := serNumAbs_head m.natAbs e
      refine ⟨d0, t0, ?_, jsonWs_of_digit hd0, decDigit_ne hd0 ']' (by decide),
        decDigit_ne hd0 ',' (by decide)⟩
      simp [serVal, serNum, hm, h0]

theorem serVal_length_pos (j : Json) : 1 ≤ (serVal j).length := by
  obtain ⟨c, t, hj, _, _, _⟩ := serVal_head j
  rw [hj]
  simp

theorem skipWs_no_ws {c : Char} (h : jsonWs c = false) (t : List Char) :
    skipWs (c :: t) = c :: t := by
  simp [skipWs, h]

theorem skipWs_serVal (j : Json) (x : List Char) :
    skipWs (serVal j ++ x) = serVal j ++ x := by
  obtain ⟨c, t, hj, hws, _, _⟩ := serVal_head j
  rw [hj, List.cons_append, skipWs_no_ws hws]

/-! ## One-step reductions of the parser on rendered input -/

/-- A value whose input matches none of the keyword, string, array or object
heads parses through `parseNum`. -/
theorem parseVal_default (fuel : Nat) (c0 : Char) (t : List Char)
    (hws : jsonWs c0 = false) (hvn : c0 ≠ 'n') (hvt : c0 ≠ 't')
    (hvf : c0 ≠ 'f') (hvq : c0 ≠ '"') (hvk : c0 ≠ '[') (hvb : c0 ≠ '\x7b') :
    parseVal (fuel + 1) (c0 :: t) =
      (match parseNum (c0 :: t) with
       | some p => some (.num p.1.1 p.1.2, p.2)
       | none => none) := by
  simp only [parseVal]
  rw [skipWs_no_ws hws]
  split
  · rename_i heq
    rw [List.cons.injEq] at heq
    exact absurd heq.1 hvn
  · rename_i heq
    rw [List.cons.injEq] at heq
    exact absurd heq.1 hvt
  · rename_i heq
    rw [List.cons.injEq] at heq
    exact absurd heq.1 hvf
  · rename_i heq
    rw [List.cons.injEq] at heq
    exact absurd heq.1 hvq
  · rename_i heq
    rw [List.cons.injEq] at heq
    exact absurd heq.1 hvk
  · rename_i heq
    rw [List.cons.injEq] at heq
    exact absurd heq.1 hvb
  · rfl

/-- The parser recovers a rendered number at the value level. -/
theorem parseVal_serNum (fuel : Nat) (m : Int) (e : Nat) (rest : List Char)
    (hr : numStop rest = true) :
    parseVal (fuel + 1) (serNum m e ++ rest) = some (.num m e, rest) := by
  by_cases hm : m < 0
  · have hser : serNum m e ++ rest = '-' :: (serNumAbs m.natAbs e ++ rest) := by
      simp [serNum, hm]
    rw [hser, parseVal_default fuel '-' _ (by decide) (by decide) (by decide) (by decide)
      (by decide) (by decide) (by decide), ← hser, parseNum_serNum m e rest hr]
  · obtain ⟨d0, t0, h0, hd0⟩ := serNumAbs_head m.natAbs e
    have hser : serNum m e ++ rest = d0 :: (t0 ++ rest) := by
      simp [serNum, hm, h0]
    rw [hser, parseVal_default fuel d0 _ (jsonWs_of_digit hd0)
      (decDigit_ne hd0 'n' (by decide)) (decDigit_ne hd0 't' (by decide))
      (decDigit_ne hd0 'f' (by decide)) (decDigit_ne hd0 '"' (by decide))
      (decDigit_ne hd0 '[' (by decide)) (decDigit_ne hd0 '\x7b' (by decide)),
      ← hser, parseNum_serNum m e rest hr]

/-- The parser recovers a rendered string at the value level. -/
theorem parseVal_serStr (fuel : Nat) (s : String) (rest : List Char) :
    parseVal (fuel + 1) (serVal (.str s) ++ rest) = some (.str s, rest) := by
  have harg : serVal (.str s) ++ rest = '"' :: (escChars s.data ++ '"' :: rest) := by
    show ('"' :: (escChars s.data ++ ['"'])) ++ rest = _
    rw [List.cons_append, List.append_assoc]
    rfl
  rw [harg]
  have step : parseVal (fuel + 1) ('"' :: (escChars s.data ++ '"' :: rest)) =
      (match parseStrBody (escChars s.data ++ '"' :: rest) with
       | some p => some (.str (String.mk p.1), p.2)
       | none => none) := rfl
  rw [step, parseStrBody_escChars]

/-- The array branch of the parser on a rendered nonempty element list. -/
theorem parseVal_arr_cons (fuel : Nat) (x : Json) (xs : List Json) (rest : List Char) :
    parseVal (fuel + 1) ('[' :: (serItems (x :: xs) ++ ']' :: rest)) =
      (match parseItems fuel (serItems (x :: xs) ++ ']' :: rest) with
       | some p => some (.arr p.1, p.2)
       | none => none) := by
  obtain ⟨c, t, hx, hws, hbr, _⟩ := serVal_head x
  have hcons : serItems (x :: xs) ++ ']' :: rest
      = c :: (t ++ (serItemsTail xs ++ ']' :: rest)) := by
    show (serVal x ++ serItemsTail xs) ++ ']' :: rest = _
    rw [List.append_assoc, hx, List.cons_append]
  have step : parseVal (fuel + 1) ('[' :: (serItems (x :: xs) ++ ']' :: rest)) =
      (match skipWs (serItems (x :: xs) ++ ']' :: rest) with
       | ']' :: r1 => some (.arr [], r1)
       | cs1 =>
         match parseItems fuel cs1 with
         | some p => some (.arr p.1, p.2)
         | none => none) := rfl
  rw [step, hcons, skipWs_no_ws hws]
  split
  · rename_i heq
    rw [List.cons.injEq] at heq
    exact absurd heq.1 hbr
  · rw [← hcons]

/-- The object branch of the parser on a rendered nonempty member list. -/
theorem parseVal_obj_cons (fuel : Nat) (k : String) (v : Json)
    (kvs : List (String × Json)) (rest : List Char) :
    parseVal (fuel + 1) ('\x7b' :: (serFields ((k, v) :: kvs) ++ '\x7d' :: rest)) =
      (match parseFields fuel (serFields ((k, v) :: kvs) ++ '\x7d' :: rest) with
       | some p => some (.obj p.1, p.2)
       | none => none) := by
  have hcons : serFields ((k, v) :: kvs) ++ '\x7d' :: rest
      = '"' :: ((escChars k.data ++ ['"']) ++ (':' :: (serVal v ++ serFieldsTail kvs))
          ++ '\x7d' :: rest) := by
    show (('"' :: (escChars k.data ++ ['"'])) ++ (':' :: (serVal v ++ serFieldsTail kvs)))
        ++ '\x7d' :: rest = _
    rw [List.cons_append, List.cons_append]
  have step : parseVal (fuel + 1) ('\x7b' :: (serFields ((k, v) :: kvs) ++ '\x7d' :: rest)) =
      (match skipWs (serFields ((k, v) :: kvs) ++ '\x7d' :: rest) with
       | '\x7d' :: r1 => some (.obj [], r1)
       | cs1 =>
         match parseFields fuel cs1 with
         | some p => some (.obj p.1, p.2)
         | none => none) := rfl
  rw [step, hcons, skipWs_no_ws (by decide)]
  split
  · rename_i heq
    rw [List.cons.injEq] at heq
    exact absurd heq.1 (by decide)
  · rw [← hcons]

/-- One-step unfolding of `parseItems` at successor fuel. -/
theorem parseItems_step (fuel : Nat) (cs : List Char) :
    parseItems (fuel + 1) cs =
      (match parseVal fuel cs with
       | none => none
       | some (v, r) =>
         match skipWs r with
         | ',' :: r1 =>
           (match parseItems fuel r1 with
            | some p => some (v :: p.1, p.2)
            | none => none)
         | ']' :: r1 => some ([v], r1)
         | _ => none) := rfl

/-- One-step unfolding of `parseFields` at successor fuel. -/
theorem parseFields_step (fuel : Nat) (cs : List Char) :
    parseFields (fuel + 1) cs =
      (match skipWs cs with
       | '"' :: r =>
         (match parseStrBody r with
          | none => none
          | some (k, r1) =>
            match skipWs r1 with
            | ':' :: r2 =>
              (match parseVal fuel r2 with
               | none => none
               | some (v, r3) =>
                 match skipWs r3 with
                 | ',' :: r4 =>
                   (match parseFields fuel r4 with
                    | some p => some ((String.mk k, v) :: p.1, p.2)
                    | none => none)
                 | '\x7d' :: r4 => some ([(String.mk k, v)], r4)
                 | _ => none)
            | _ => none)
       | _ => none) := rfl

/-! ## The codec roundtrip, whole grammar -/

mutual

/-- Parsing a rendered value recovers it, given fuel beyond the rendered
length and a remainder that cannot extend a number literal. -/
theorem rt_val : ∀ (j : Json) (fuel : Nat) (rest : List Char),
    (serVal j).length < fuel → numStop rest = true →
    parseVal fuel (serVal j ++ rest) = some (j, rest)
  | .null, 0, _, hf, _ => absurd hf (Nat.not_lt_zero _)
  | .null, _ + 1, _, _, _ => rfl
  | .bool true, 0, _, hf, _ => absurd hf (Nat.not_lt_zero _)
  | .bool true, _ + 1, _, _, _ => rfl
  | .bool false, 0, _, hf, _ => absurd hf (Nat.not_lt_zero _)
  | .bool false, _ + 1, _, _, _ => rfl
  | .str s, 0, _, hf, _ => absurd hf (Nat.not_lt_zero _)
  | .str s, f + 1, rest, _, _ => parseVal_serStr f s rest
  | .num m e, 0, _, hf, _ => absurd hf (Nat.not_lt_zero _)
  | .num m e, f + 1, rest, _, hr => parseVal_serNum f m e rest hr
  | .arr [], 0, _, hf, _ => absurd hf (Nat.not_lt_zero _)
  | .arr [], _ + 1, _, _, _ => rfl
  | .arr (x :: xs), 0, _, hf, _ => absurd hf (Nat.not_lt_zero _)
  | .arr (x :: xs), f + 1, rest, hf, _ => by
    have harr : serVal (.arr (x :: xs)) ++ rest = '[' :: (serItems (x :: xs) ++ ']' :: rest) := by
      show ('[' :: (serItems (x :: xs) ++ [']'])) ++ rest = _
      rw [List.cons_append, List.append_assoc]
      rfl
    have hlen : (serItems (x :: xs)).length + 1 < f := by
      have h2 : (serVal (.arr (x :: xs))).length = (serItems (x :: xs)).length + 2 := by
        show ('[' :: (serItems (x :: xs) ++ [']'])).length = _
        simp
      omega
    rw [harr, parseVal_arr_cons f x xs rest, rt_items x xs f rest hlen]
  | .obj [], 0, _, hf, _ => absurd hf (Nat.not_lt_zero _)
  | .obj [], _ + 1, _, _, _ => rfl
  | .obj ((k, v) :: kvs), 0, _, hf, _ => absurd hf (Nat.not_lt_zero _)
  | .obj ((k, v) :: kvs), f + 1, rest, hf, _ => by
    have hobj : serVal (.obj ((k, v) :: kvs)) ++ rest
        = '\x7b' :: (serFields ((k, v) :: kvs) ++ '\x7d' :: rest) := by
      show ('\x7b' :: (serFields ((k, v) :: kvs) ++ ['\x7d'])) ++ rest = _
      rw [List.cons_append, List.append_assoc]
      rfl
    have hlen : (serFields ((k, v) :: kvs)).length + 1 < f := by
      have h2 : (serVal (.obj ((k, v) :: kvs))).length = (serFields ((k, v) :: kvs)).length + 2 := by
        show ('\x7b' :: (serFields ((k, v) :: kvs) ++ ['\x7d'])).length = _
        simp
      omega
    rw [hobj, parseVal_obj_cons f k v kvs rest, rt_fields (k, v) kvs f rest hlen]
termination_by j _ _ _ _ => sizeOf j

/-- Parsing a rendered nonempty element list up to the closing bracket. -/
theorem rt_items : ∀ (x : Json) (xs : List Json) (fuel : Nat) (rest : List Char),
    (serItems (x :: xs)).length + 1 < fuel →
    parseItems fuel (serItems (x :: xs) ++ ']' :: rest) = some (x :: xs, rest)
  | _, _, 0, _, hf => absurd hf (Nat.not_lt_zero _)
  | x, [], f + 1, rest, hf => by
    have harg : serItems (x :: []) ++ ']' :: rest = serVal x ++ ']' :: rest := by
      show (serVal x ++ serItemsTail []) ++ ']' :: rest = _
      rw [show serItemsTail ([] : List Json) = [] from rfl, List.append_nil]
    have hfx : (serVal x).length < f := by
      have h2 : (serItems (x :: [])).length = (serVal x).length := by
        show (serVal x ++ serItemsTail []).length = _
        rw [show serItemsTail ([] : List Json) = [] from rfl, List.append_nil]
      omega
    rw [parseItems_step, harg, rt_val x f (']' :: rest) hfx rfl]
    rfl
  | x, y :: ys, f + 1, rest, hf => by
    have harg : serItems (x :: y :: ys) ++ ']' :: rest
        = serVal x ++ (',' :: (serItems (y :: ys) ++ ']' :: rest)) := by
      show (serVal x ++ (',' :: serItems (y :: ys))) ++ ']' :: rest = _
      rw [List.append_assoc, List.cons_append]
    have hx1 := serVal_length_pos x
    have h2 : (serItems (x :: y :: ys)).length
        = (serVal x).length + 1 + (serItems (y :: ys)).length := by
      show (serVal x ++ (',' :: serItems (y :: ys))).length = _
      simp only [List.length_append, List.length_cons]
      omega
    have hfx : (serVal x).length < f := by omega
    have hfy : (serItems (y :: ys)).length + 1 < f := by omega
    rw [parseItems_step, harg, rt_val x f (',' :: (serItems (y :: ys) ++ ']' :: rest)) hfx rfl]
    show (match parseItems f (serItems (y :: ys) ++ ']' :: rest) with
          | some p => some (x :: p.1, p.2)
          | none => none) = some (x :: y :: ys, rest)
    rw [rt_items y ys f rest hfy]
termination_by x xs _ _ _ => sizeOf x + sizeOf xs

/-- Parsing a rendered nonempty member list up to the closing brace. -/
theorem rt_fields : ∀ (kv : String × Json) (kvs : List (String × Json)) (fuel : Nat)
    (rest : List Char),
    (serFields (kv :: kvs)).length + 1 < fuel →
    parseFields fuel (serFields (kv :: kvs) ++ '\x7d' :: rest) = some (kv :: kvs, rest)
  | _, _, 0, _, hf => absurd hf (Nat.not_lt_zero _)
  | (k, v), [], f + 1, rest, hf => by
    have harg : serFields ((k, v) :: []) ++ '\x7d' :: rest
        = '"' :: (escChars k.data ++ '"' :: (':' :: (serVal v ++ '\x7d' :: rest))) := by
      show (('"' :: (escChars k.data ++ ['"'])) ++ (':' :: (serVal v ++ serFieldsTail [])))
          ++ '\x7d' :: rest = _
      simp [show serFieldsTail ([] : List (String × Json)) = [] from rfl]
    have hLen : (serFields ((k, v) :: [])).length
        = (escChars k.data).length + 3 + (serVal v).length := by
      show (('"' :: (escChars k.data ++ ['"'])) ++ (':' :: (serVal v ++ serFieldsTail []))).length = _
      simp only [show serFieldsTail ([] : List (String × Json)) = [] from rfl, List.append_nil,
        List.length_append, List.length_cons, List.length_singleton, List.length_nil]
      omega
    have hfv : (serVal v).length < f := by omega
    rw [parseFields_step, harg]
    show (match parseStrBody (escChars k.data ++ '"' :: (':' :: (serVal v ++ '\x7d' :: rest))) with
          | none => none
          | some (k1, r1) =>
            match skipWs r1 with
            | ':' :: r2 =>
              (match parseVal f r2 with
               | none => none
               | some (v1, r3) =>
                 match skipWs r3 with
                 | ',' :: r4 =>
                   (match parseFields f r4 with
                    | some p => some ((String.mk k1, v1) :: p.1, p.2)
                    | none => none)
                 | '\x7d' :: r4 => some ([(String.mk k1, v1)], r4)
                 | _ => none)
            | _ => none) = some ((k, v) :: [], rest)
    rw [parseStrBody_escChars]
    show (match parseVal f (serVal v ++ '\x7d' :: rest) with
          | none => none
          | some (v1, r3) =>
            match skipWs r3 with
            | ',' :: r4 =>
              (match parseFields f r4 with
               | some p => some ((String.mk k.data, v1) :: p.1, p.2)
               | none => none)
            | '\x7d' :: r4 => some ([(String.mk k.data, v1)], r4)
            | _ => none) = some ((k, v) :: [], rest)
    rw [rt_val v f ('\x7d' :: rest) hfv rfl]
    show some ([(String.mk k.data, v)], rest) = some ([(k, v)], rest)
    rw [stringMk_data]
  | (k, v), (k2, v2) :: ms, f + 1, rest, hf => by
    have harg : serFields ((k, v) :: (k2, v2) :: ms) ++ '\x7d' :: rest
        = '"' :: (escChars k.data ++ '"' :: (':' :: (serVal v ++ ',' ::
            (serFields ((k2, v2) :: ms) ++ '\x7d' :: rest)))) := by
      show (('"' :: (escChars k.data ++ ['"'])) ++ (':' :: (serVal v ++ (',' ::
          serFields ((k2, v2) :: ms))))) ++ '\x7d' :: rest = _
      simp [List.append_assoc]
    have hLen : (serFields ((k, v) :: (k2, v2) :: ms)).length
        = (escChars k.data).length + 4 + (serVal v).length
          + (serFields ((k2, v2) :: ms)).length := by
      show (('"' :: (escChars k.data ++ ['"'])) ++ (':' :: (serVal v ++ (',' ::
          serFields ((k2, v2) :: ms))))).length = _
      simp only [List.length_append, List.length_cons, List.length_singleton, List.length_nil]
      omega
    have hfv : (serVal v).length < f := by omega
    have hfm : (serFields ((k2, v2) :: ms)).length + 1 < f := by omega
    rw [parseFields_step, harg]
    show (match parseStrBody (escChars k.data ++ '"' :: (':' :: (serVal v ++ ',' ::
            (serFields ((k2, v2) :: ms) ++ '\x7d' :: rest)))) with
          | none => none
          | some (k1, r1) =>
            match skipWs r1 with
            | ':' :: r2 =>
              (match parseVal f r2 with
               | none => none
               | some (v1, r3) =>
                 match skipWs r3 with
                 | ',' :: r4 =>
                   (match parseFields f r4 with
                    | some p => some ((String.mk k1, v1) :: p.1, p.2)
                    | none => none)
                 | '\x7d' :: r4 => some ([(String.mk k1, v1)], r4)
                 | _ => none)
            | _ => none) = some ((k, v) :: (k2, v2) :: ms, rest)
    rw [parseStrBody_escChars]
    show (match parseVal f (serVal v ++ ',' :: (serFields ((k2, v2) :: ms) ++ '\x7d' :: rest)) with
          | none => none
          | some (v1, r3) =>
            match skipWs r3 with
            | ',' :: r4 =>
              (match parseFields f r4 with
               | some p => some ((String.mk k.data, v1) :: p.1, p.2)
               | none => none)
            | '\x7d' :: r4 => some ([(String.mk k.data, v1)], r4)
            | _ => none) = some ((k, v) :: (k2, v2) :: ms, rest)
    rw [rt_val v f (',' :: (serFields ((k2, v2) :: ms) ++ '\x7d' :: rest)) hfv rfl]
    show (match parseFields f (serFields ((k2, v2) :: ms) ++ '\x7d' :: rest) with
          | some p => some ((String.mk k.data, v) :: p.1, p.2)
          | none => none) = some ((k, v) :: (k2, v2) :: ms, rest)
    rw [rt_fields (k2, v2) ms f rest hfm]
termination_by kv kvs _ _ _ => sizeOf kv + sizeOf kvs

end

/-- Top-level roundtrip: `JSON.parse` inverts the renderer on whole input. -/
theorem jsonParseChars_serVal (j : Json) : jsonParseChars (serVal j) = some j := by
  have h := rt_val j ((serVal j).length + 1) [] (by omega) rfl
  rw [List.append_nil] at h
  simp only [jsonParseChars, h]
  rfl

/-! ## Greedy span extraction on rendered values -/

theorem lastIdxOf_getLast (c : Char) :
    ∀ (cs : List Char), cs.getLast? = some c → lastIdxOf c cs = some (cs.length - 1) := by
  intro cs
  induction cs with
  | nil => intro h; simp at h
  | cons x t ih =>
    intro h
    match t, h with
    | [], h => 
      simp only [List.getLast?_singleton, Option.some.injEq] at h
      simp [lastIdxOf, h]
    | y :: t2, h =>
      have hgl : (y :: t2).getLast? = some c := by
        rw [List.getLast?_cons_cons] at h
        exact h
      have hrec := ih hgl
      have hstep : lastIdxOf c (x :: y :: t2)
          = (match lastIdxOf c (y :: t2) with
             | some i => some (i + 1)
             | none => if x = c then some 0 else none) := rfl
      rw [hstep, hrec]
      simp

/-- The greedy bracket regular expression matches a whole rendered wrap. -/
theorem greedySpan_wrap (o c : Char) (M : List Char) :
    greedySpan o c ((o :: M) ++ [c]) = some ((o :: M) ++ [c]) := by
  have hfst : firstIdxOf o ((o :: M) ++ [c]) = some 0 := by
    rw [List.cons_append]
    simp [firstIdxOf]
  have hlast : lastIdxOf c ((o :: M) ++ [c]) = some (((o :: M) ++ [c]).length - 1) :=
    lastIdxOf_getLast c _ (List.getLast?_concat _)
  have hlen : ((o :: M) ++ [c]).length = M.length + 2 := by simp
  simp only [greedySpan, hfst, hlast, hlen]
  rw [if_pos (by omega)]
  rw [show M.length + 2 - 1 - 0 + 1 = M.length + 2 from by omega]
  rw [List.drop_zero, ← hlen, List.take_length]

/-- Round-trip of `safeJsonParse` over the serializer for arrays: the array
regular expression captures the whole rendered text and the parse succeeds. -/
theorem safeJsonParse_stringify_arr (xs : List Json) (fb : Json) :
    safeJsonParse (stringify (Json.arr xs)) fb = Json.arr xs := by
  have hser : (stringify (Json.arr xs)).data = ('[' :: serItems xs) ++ [']'] := rfl
  have hfrag : jsonBlockMatch (stringify (Json.arr xs)) = some (('[' :: serItems xs) ++ [']']) := by
    simp only [jsonBlockMatch, hser, greedySpan_wrap]
  have hparse : jsonParseChars (('[' :: serItems xs) ++ [']']) = some (Json.arr xs) := by
    rw [show ('[' :: serItems xs) ++ [']'] = serVal (Json.arr xs) from rfl]
    exact jsonParseChars_serVal _
  simp only [safeJsonParse, hfrag, hparse]

/-- Round-trip of `safeJsonParse` over the serializer for objects whose
rendering the array regular expression does not match: the object regular
expression captures the whole text and the parse succeeds. -/
theorem safeJsonParse_stringify_obj (kvs : List (String × Json)) (fb : Json)
    (h : greedySpan '[' ']' (stringify (Json.obj kvs)).data = none) :
    safeJsonParse (stringify (Json.obj kvs)) fb = Json.obj kvs := by
  have hser : (stringify (Json.obj kvs)).data = ('\x7b' :: serFields kvs) ++ ['\x7d'] := rfl
  rw [hser] at h
  have hfrag : jsonBlockMatch (stringify (Json.obj kvs))
      = some (('\x7b' :: serFields kvs) ++ ['\x7d']) := by
    simp only [jsonBlockMatch, hser, h, greedySpan_wrap]
  have hparse : jsonParseChars (('\x7b' :: serFields kvs) ++ ['\x7d']) = some (Json.obj kvs) := by
    rw [show ('\x7b' :: serFields kvs) ++ ['\x7d'] = serVal (Json.obj kvs) from rfl]
    exact jsonParseChars_serVal _
  simp only [safeJsonParse, hfrag, hparse]

/-! ## The integer comparison encoding agrees with the rational values -/

theorem jsNumLt_eq_ratLt (m : Int) (e : Nat) (m2 : Int) (e2 : Nat) :
    jsNumLt (some (Json.num m e)) m2 e2 = decide (ratOfNum m e < ratOfNum m2 e2) := by
  have h : (m * 10 ^ e2 < m2 * 10 ^ e) ↔ (ratOfNum m e < ratOfNum m2 e2) := by
    rw [ratOfNum, ratOfNum, div_lt_div_iff₀ (by positivity) (by positivity)]
    exact_mod_cast Iff.rfl
  simp only [jsNumLt]
  rw [decide_eq_decide]
  exact h

theorem jsNumGt_eq_ratGt (m : Int) (e : Nat) (m2 : Int) (e2 : Nat) :
    jsNumGt (some (Json.num m e)) m2 e2 = decide (ratOfNum m e > ratOfNum m2 e2) := by
  have h : (m2 * 10 ^ e < m * 10 ^ e2) ↔ (ratOfNum m2 e2 < ratOfNum m e) := by
    rw [ratOfNum, ratOfNum, div_lt_div_iff₀ (by positivity) (by positivity)]
    exact_mod_cast Iff.rfl
  simp only [jsNumGt]
  rw [decide_eq_decide]
  exact h

/-! ## Claim theorems -/

/-- Claim C4: confirmed. `identifyOpportunities` returns, for every input
triple, exactly the tags whose rules hold — LOW_REPUTATION iff rating < 4.0,
UNDERVALUED iff rating > 4.5 and reviews < 20, MISSING_INFO iff the website is
absent — in the fixed order LOW_REPUTATION, UNDERVALUED, MISSING_INFO (stated
as a filter of the spec's rule table over the declared order, so both
thresholds are strict), and it meets the claim's boundary examples, with
`classify(3.5, 5, false)` containing both LOW_REPUTATION and MISSING_INFO. -/
theorem c4_classifier_rules_and_order :
    (∀ (rating reviews : ℚ) (hasWebsite : Bool),
      identifyOpportunities rating reviews hasWebsite
        = specTagOrder.filter (specTagRule rating reviews hasWebsite)) ∧
    identifyOpportunities 4.0 0 true = [] ∧
    identifyOpportunities 3.99 0 true = [OpportunityType.LOW_REPUTATION] ∧
    identifyOpportunities 4.51 19 true = [OpportunityType.UNDERVALUED] ∧
    identifyOpportunities 4.51 20 true = [] ∧
    identifyOpportunities 5.0 1000 false = [OpportunityType.MISSING_INFO] ∧
    identifyOpportunities 3.5 5 false
      = [OpportunityType.LOW_REPUTATION, OpportunityType.MISSING_INFO] := by
  refine ⟨?_, ?_, ?_, ?_, ?_, ?_, ?_⟩
  · intro rating reviews hasWebsite
    by_cases h1 : rating < (4.0 : ℚ) <;>
    by_cases h2a : rating > (4.5 : ℚ) <;>
    by_cases h2b : reviews < (20 : ℚ) <;>
    cases hasWebsite <;>
    simp [identifyOpportunities, specTagOrder, specTagRule, LEAD_THRESHOLDS,
      h1, h2a, h2b]
  all_goals norm_num [identifyOpportunities, LEAD_THRESHOLDS]

/-- Claim C10: confirmed. The classifier never returns LOW_REPUTATION and
UNDERVALUED together — their guards rating < 4.0 and rating > 4.5 cannot both
hold — so the returned tag list always has length at most 2. -/
theorem c10_classifier_disjoint_guards (rating reviews : ℚ) (hasWebsite : Bool) :
    ¬(OpportunityType.LOW_REPUTATION ∈ identifyOpportunities rating reviews hasWebsite ∧
      OpportunityType.UNDERVALUED ∈ identifyOpportunities rating reviews hasWebsite) ∧
    (identifyOpportunities rating reviews hasWebsite).length ≤ 2 := by
  have hlt : LEAD_THRESHOLDS.LOW_REPUTATION_RATING ≤ LEAD_THRESHOLDS.UNDERVALUED_RATING := by
    norm_num [LEAD_THRESHOLDS]
  rcases lt_or_le rating LEAD_THRESHOLDS.LOW_REPUTATION_RATING with h1 | h1
  · have hnu : ¬(rating > LEAD_THRESHOLDS.UNDERVALUED_RATING ∧
        reviews < LEAD_THRESHOLDS.UNDERVALUED_MAX_REVIEWS) := by
      rintro ⟨hgt, -⟩
      exact absurd (h1.trans_le hlt) (not_lt.mpr hgt.le)
    cases hasWebsite <;> simp [identifyOpportunities, h1, hnu]
  · have hnl : ¬(rating < LEAD_THRESHOLDS.LOW_REPUTATION_RATING) := not_lt.mpr h1
    by_cases h2 : rating > LEAD_THRESHOLDS.UNDERVALUED_RATING ∧
        reviews < LEAD_THRESHOLDS.UNDERVALUED_MAX_REVIEWS <;>
      cases hasWebsite <;> simp [identifyOpportunities, hnl, h2]

/-- Claim C1: code_bug. `performAudit` records no request token and its
continuation applies `setAudit(result)` unconditionally, so the stale-discard
invariant fails: in the overlapping trace — select lead A, select lead B
before A's call resolves, B's audit arrives, then A's stale audit arrives —
the final state has lead B selected while displaying lead A's audit, not B's
(the environment answers each request with its own lead's audit). -/
theorem c1_audit_token_discipline_violated :
    raceFinal.state.selectedLead = some leadBravo ∧
    raceFinal.state.audit = some auditOfAlpha ∧
    raceEnv.auditResult leadAlpha = Except.ok auditOfAlpha ∧
    raceEnv.auditResult leadBravo = Except.ok auditOfBravo ∧
    raceFinal.state.audit ≠ some auditOfBravo :=
  ⟨rfl, rfl, rfl, rfl, by decide⟩

/-- Claim C2: code_bug. At the cited lines `findLeads` feeds the greedy match
to a bare `JSON.parse`, so AI text whose bracketed fragment is not valid JSON
rejects the promise with a SyntaxError instead of yielding the empty list; the
repository's refactored variant (through `safeJsonParse`) does return the
empty list on the same input. -/
theorem c2_discover_parse_failure_raises :
    findLeadsLegacy 0 (some ("[oops]"))
      = Except.error ("SyntaxError: unexpected token in JSON") ∧
    (Except.error ("SyntaxError: unexpected token in JSON")
        : Except String (List BusinessLead)) ≠ Except.ok [] ∧
    findLeadsRefactored 0 (some ("[oops]")) = Except.ok [] :=
  ⟨rfl, fun hcontra => Except.noConfusion hcontra, rfl⟩

/-- Claim C3: code_bug. The cited `findLeads` evaluates its opportunity rules
on the raw record before defaulting, where a missing `reviews` field compares
as `undefined` (always false), so a record with rating 4.9 and no reviews
field maps to a lead whose stored, defaulted triple (4.9, 0, no website)
classifies to [UNDERVALUED, MISSING_INFO] under the section 4.2 rules but
whose opportunities are only [MISSING_INFO]. The worked Smile Co example
itself does come out as specified. -/
theorem c3_lead_mapping_classifier_divergence :
    findLeadsLegacy 0 (some smileCoText)
      = Except.ok [{ id := "lead-0-0", name := "Smile Co", address := "1 Main St",
                     rating := ratOfNum 32 1, reviews := ratOfNum 40 0, website := none,
                     opportunities := [OpportunityType.LOW_REPUTATION,
                       OpportunityType.MISSING_INFO] }] ∧
    ratOfNum 32 1 = 3.2 ∧ ratOfNum 40 0 = 40 ∧
    findLeadsLegacy 0 (some missingReviewsText)
      = Except.ok [{ id := "lead-0-0", name := "A", address := "B",
                     rating := ratOfNum 49 1, reviews := 0, website := none,
                     opportunities := [OpportunityType.MISSING_INFO] }] ∧
    identifyOpportunities (ratOfNum 49 1) 0 false
      = [OpportunityType.UNDERVALUED, OpportunityType.MISSING_INFO] ∧
    ([OpportunityType.MISSING_INFO] : List OpportunityType)
      ≠ [OpportunityType.UNDERVALUED, OpportunityType.MISSING_INFO] := by
  refine ⟨rfl, by norm_num [ratOfNum], by norm_num [ratOfNum], rfl, ?_, by decide⟩
  norm_num [identifyOpportunities, ratOfNum, LEAD_THRESHOLDS]

/-- Claim C5: corrected. The roundtrip holds for every array, and for every
object whose rendering the greedy array expression does not match; it fails
for objects in general, because the code tries the array expression first and
has no whole-text parse and no fenced-block strategy (see the counterexample
theorem for an object coerced to its inner array). -/
theorem c5_stringify_roundtrip_amended (xs : List Json) (kvs : List (String × Json))
    (fb : Json) (h : greedySpan '[' ']' (stringify (Json.obj kvs)).data = none) :
    safeJsonParse (stringify (Json.arr xs)) fb = Json.arr xs ∧
    safeJsonParse (stringify (Json.obj kvs)) fb = Json.obj kvs :=
  ⟨safeJsonParse_stringify_arr xs fb, safeJsonParse_stringify_obj kvs fb h⟩

/-- Witness for the amended C5 roundtrip at concrete values. -/
theorem c5_stringify_roundtrip_amended_witness :
    safeJsonParse (stringify (Json.arr [Json.num 1 0])) Json.null = Json.arr [Json.num 1 0] ∧
    safeJsonParse (stringify (Json.obj [("a", Json.num 2 0)])) Json.null
      = Json.obj [("a", Json.num 2 0)] :=
  c5_stringify_roundtrip_amended [Json.num 1 0] [("a", Json.num 2 0)] Json.null rfl

/-- Counterexample to C5 as stated: the object with an array value fails the
roundtrip — the array expression captures the inner span and coercion returns
the inner array, not the object. -/
theorem c5_stringify_roundtrip_counterexample :
    safeJsonParse (stringify (Json.obj [("a", Json.arr [Json.num 0 0])])) Json.null
      = Json.arr [Json.num 0 0] ∧
    Json.arr [Json.num 0 0] ≠ Json.obj [("a", Json.arr [Json.num 0 0])] :=
  ⟨rfl, fun hcontra => Json.noConfusion hcontra⟩

/-- Claim C6: corrected. When both calls succeed and the Phase 2 text bears no
array fragment, both variants succeed with empty gaps; but a rejected Phase 2
promise propagates out of both variants, and a bracketed non-JSON Phase 2 text
makes the cited legacy code reject with a SyntaxError (see the counterexample
theorem), so the claim holds in general only for the refactored variant's
parse failures, not for call failures. -/
theorem c6_phase2_gaps_amended (resp1 gaps2 : AIResponse)
    (h1 : greedySpan '[' ']' (jsOrStr gaps2.text ("[]")).data = none)
    (h2 : safeJsonParse (jsOrStr gaps2.text ("[]")) (Json.arr []) = Json.arr []) :
    auditBusinessLegacy (Except.ok resp1) (Except.ok gaps2)
      = Except.ok { content := jsOrStr resp1.text ("No audit data available.")
                    sources := extractSources resp1
                    gaps := [] } ∧
    auditBusinessRefactored (Except.ok resp1) (Except.ok gaps2)
      = Except.ok { content := jsOrStr resp1.text ("No audit data available.")
                    sources := extractSources resp1
                    gaps := [] } := by
  constructor
  · have hstep : auditBusinessLegacy (Except.ok resp1) (Except.ok gaps2)
        = (match jsonParseChars
              ((greedySpan '[' ']' (jsOrStr gaps2.text ("[]")).data).getD (("[]").data)) with
           | none => Except.error ("SyntaxError: unexpected token in JSON")
           | some g =>
             Except.ok { content := jsOrStr resp1.text ("No audit data available.")
                         sources := extractSources resp1
                         gaps := gapStrings g }) := rfl
    rw [hstep, h1]
    rfl
  · have hstep : auditBusinessRefactored (Except.ok resp1) (Except.ok gaps2)
        = Except.ok { content := jsOrStr resp1.text ("No audit data available.")
                      sources := extractSources resp1
                      gaps := gapStrings (safeJsonParse (jsOrStr gaps2.text ("[]"))
                        (Json.arr [])) } := rfl
    rw [hstep, h2]
    rfl

/-- Witness for the amended C6 at a concrete prose Phase 2 response. -/
theorem c6_phase2_gaps_amended_witness :
    auditBusinessLegacy (Except.ok phase1Resp) (Except.ok gapsProseResp)
      = Except.ok { content := jsOrStr phase1Resp.text ("No audit data available.")
                    sources := extractSources phase1Resp
                    gaps := [] } ∧
    auditBusinessRefactored (Except.ok phase1Resp) (Except.ok gapsProseResp)
      = Except.ok { content := jsOrStr phase1Resp.text ("No audit data available.")
                    sources := extractSources phase1Resp
                    gaps := [] } :=
  c6_phase2_gaps_amended phase1Resp gapsProseResp rfl rfl

/-- Counterexample to C6 as stated: a rejected Phase 2 promise propagates out
of both variants, and a bracketed non-JSON Phase 2 text makes the cited legacy
code reject with a SyntaxError instead of succeeding with empty gaps. -/
theorem c6_phase2_gaps_counterexample :
    auditBusinessLegacy (Except.ok phase1Resp) (Except.ok gapsCrashResp)
      = Except.error ("SyntaxError: unexpected token in JSON") ∧
    auditBusinessLegacy (Except.ok phase1Resp) (Except.error ("network down"))
      = Except.error ("network down") ∧
    auditBusinessRefactored (Except.ok phase1Resp) (Except.error ("network down"))
      = Except.error ("network down") :=
  ⟨rfl, rfl, rfl⟩

/-- Claim C7: confirmed. `safeJsonParse` is a total function of its inputs (it
can raise nothing), and it returns the fallback unchanged whenever the two
greedy expressions find no fragment — in particular on any text with no
bracketed span, such as a plain prose reply — or the found fragment fails to
parse. -/
theorem c7_coerce_fallback_total (text : String) (fb : Json)
    (h : ∀ frag, jsonBlockMatch text = some frag → jsonParseChars frag = none) :
    safeJsonParse text fb = fb := by
  unfold safeJsonParse
  cases hb : jsonBlockMatch text with
  | none => rfl
  | some frag =>
    show (match jsonParseChars frag with
          | some v => v
          | none => fb) = fb
    rw [h frag hb]

/-- Witness for C7 on a fragment-free text and on a text whose fragment fails
to parse. -/
theorem c7_coerce_fallback_total_witness :
    safeJsonParse ("no data available") Json.null = Json.null ∧
    safeJsonParse ("[oops]") (Json.str ("fb")) = Json.str ("fb") :=
  ⟨c7_coerce_fallback_total ("no data available") Json.null (fun frag hfrag => by
      rw [show jsonBlockMatch ("no data available") = none from rfl] at hfrag
      exact Option.noConfusion hfrag),
   c7_coerce_fallback_total ("[oops]") (Json.str ("fb")) (fun frag hfrag => by
      rw [show jsonBlockMatch ("[oops]") = some (("[oops]").data) from rfl] at hfrag
      injection hfrag with hfr
      rw [← hfr]
      rfl)⟩

/-- Claim C8: confirmed for every search the guard lets through: with a
non-empty niche and city (the code returns early on falsy strings), the
synchronous prefix of `performSearch` clears the selected lead, the audit, the
pitch and the stored pitch configuration from any starting configuration,
before the search call resolves. -/
theorem c8_search_clears_downstream (env : ServiceEnv) (c : HookConfig) (s : SearchState)
    (h1 : s.niche ≠ "") (h2 : s.city ≠ "") :
    (hookStep env c (HookAction.searchAction s)).state.selectedLead = none ∧
    (hookStep env c (HookAction.searchAction s)).state.audit = none ∧
    (hookStep env c (HookAction.searchAction s)).state.pitch = none ∧
    (hookStep env c (HookAction.searchAction s)).state.lastPitchConfig = none := by
  simp [hookStep, startSearch, h1, h2]

/-- Witness for C8 from a configuration with a selected lead, audit and pitch
all present. -/
theorem c8_search_clears_downstream_witness :
    (hookStep raceEnv dirtyConfig
        (HookAction.searchAction { niche := "Dentist", city := "Austin" })).state.selectedLead
      = none ∧
    (hookStep raceEnv dirtyConfig
        (HookAction.searchAction { niche := "Dentist", city := "Austin" })).state.audit = none ∧
    (hookStep raceEnv dirtyConfig
        (HookAction.searchAction { niche := "Dentist", city := "Austin" })).state.pitch = none ∧
    (hookStep raceEnv dirtyConfig
        (HookAction.searchAction { niche := "Dentist", city := "Austin" })).state.lastPitchConfig
      = none :=
  c8_search_clears_downstream raceEnv dirtyConfig { niche := "Dentist", city := "Austin" }
    (by simp) (by simp)

/-- Claim C9: confirmed. When the pitch call succeeds, `generatePitch` returns
the provider's raw text when it is non-empty, and the fixed fallback sentence
when the provider returns empty or absent text. -/
theorem c9_pitch_raw_or_fallback (complete : String → Except String AIResponse)
    (lead : BusinessLead) (audit : BusinessAudit) (pitchFocus tone length : String)
    (resp : AIResponse)
    (h : complete (pitchPrompt lead audit pitchFocus tone length) = Except.ok resp) :
    generatePitch complete lead audit pitchFocus tone length
      = Except.ok (match resp.text with
          | some s => if s = "" then "Failed to generate pitch." else s
          | none => "Failed to generate pitch.") := by
  have hstep : generatePitch complete lead audit pitchFocus tone length
      = (complete (pitchPrompt lead audit pitchFocus tone length)).bind
          (fun response => Except.ok (jsOrStr response.text ("Failed to generate pitch."))) := rfl
  rw [hstep, h]
  show Except.ok (jsOrStr resp.text ("Failed to generate pitch.")) = _
  cases htext : resp.text with
  | none => rfl
  | some s => by_cases hs : s = "" <;> simp [jsOrStr, hs]

/-- Witness for C9 at a provider response with non-empty text. -/
theorem c9_pitch_raw_or_fallback_witness :
    generatePitch (fun _ => Except.ok pitchHelloResp) leadAlpha auditOfAlpha
        ("automation") ("Professional") ("Medium")
      = Except.ok (match pitchHelloResp.text with
          | some s => if s = "" then "Failed to generate pitch." else s
          | none => "Failed to generate pitch.") :=
  c9_pitch_raw_or_fallback (fun _ => Except.ok pitchHelloResp) leadAlpha auditOfAlpha
    ("automation") ("Professional") ("Medium") pitchHelloResp rfl
